import Mathlib

/-!
# The `strings` command: a shallow embedding of `src/strings.go`

The program scans each input file rune by rune (`bufio.Reader.ReadRune`),
collects runs of printable runes in the slice `str`, and prints a run through
the closure `print` when a non-printable rune arrives or when the slice has
reached `*max` runes.

Conventions of the embedding:

* a Go `string` is the list of its bytes (`List Nat`, every element below 256);
* a `rune` is a natural number (`ReadRune` never delivers a negative rune);
* Go `int` / `int64` values are unbounded integers: lengths and file positions
  stay far below `2^63` for every input the program can read;
* `strconv.IsPrint` is a parameter `isPrint` of the scanner, so every general
  statement holds for the library's real tables;
* the standard output is the list of the calls `fmt.Printf` / `fmt.Println`
  made so far (`Record`), `os.Exit(0)` is the flag `exited` of the state, and
  the run-time panic of `make` on a capacity it refuses is the flag `panicked`;
* a file is the list of its bytes; the reader is split from the scanner:
  `decode` lists what the successive calls of `ReadRune` deliver, and `scan`
  runs the loop of `do` over such a list. A read error other than `io.EOF`
  ends the list like the end of the file does.
-/

namespace Strings

/-! ## Library functions used by the program -/

/-- Conversion `byte(x)` of Go: keep the low eight bits. -/
def byte (x : Nat) : Nat := x % 256

/-- The Go function `utf8.AppendRune` applied to an empty slice: the UTF-8
encoding of one rune, invalid runes being encoded as `utf8.RuneError`. -/
def encodeRune (r : Nat) : List Nat :=
  if r ≤ 0x7F then [byte r]
  else if r ≤ 0x7FF then [0xC0 ||| byte (r >>> 6), 0x80 ||| (byte r &&& 0x3F)]
  else if 0x10FFFF < r ∨ (0xD800 ≤ r ∧ r ≤ 0xDFFF) then [0xEF, 0xBF, 0xBD]
  else if r ≤ 0xFFFF then
    [0xE0 ||| byte (r >>> 12), 0x80 ||| (byte (r >>> 6) &&& 0x3F), 0x80 ||| (byte r &&& 0x3F)]
  else
    [0xF0 ||| byte (r >>> 18), 0x80 ||| (byte (r >>> 12) &&& 0x3F),
     0x80 ||| (byte (r >>> 6) &&& 0x3F), 0x80 ||| (byte r &&& 0x3F)]

/-- The Go conversion `string(str)` of a rune slice: the concatenated UTF-8
encodings of its runes. -/
def runesToString : List Nat → List Nat
  | [] => []
  | r :: rs => encodeRune r ++ runesToString rs

/-- The Go function `strings.HasPrefix`. -/
def HasPrefix : List Nat → List Nat → Bool
  | _, [] => true
  | [], _ :: _ => false
  | a :: s, b :: p => a == b && HasPrefix s p

/-- The Go function `strings.Contains`: `substr` occurs in `s` as a contiguous
block of bytes. -/
def Contains : List Nat → List Nat → Bool
  | [], substr => HasPrefix [] substr
  | a :: s, substr => HasPrefix (a :: s) substr || Contains s substr

/-- The width field of the table `first` of package `utf8` for a lead byte in
`0xC2..0xF4`: the number of bytes of the encoding. -/
def leadSize (p0 : Nat) : Nat := if p0 < 0xE0 then 2 else if p0 < 0xF0 then 3 else 4

/-- The lower bound of the table `acceptRanges` for the second byte. -/
def acceptLo (p0 : Nat) : Nat := if p0 = 0xE0 then 0xA0 else if p0 = 0xF0 then 0x90 else 0x80

/-- The upper bound of the table `acceptRanges` for the second byte. -/
def acceptHi (p0 : Nat) : Nat := if p0 = 0xED then 0x9F else if p0 = 0xF4 then 0x8F else 0xBF

/-- The Go function `utf8.DecodeRune` on a non-empty byte slice: the first rune
and its width; a byte that does not start a well-formed encoding is delivered
as `utf8.RuneError` (U+FFFD) with width 1. -/
def DecodeRune (p : List Nat) : Nat × Nat :=
  match p with
  | [] => (0xFFFD, 0)
  | p0 :: t =>
    if p0 < 0x80 then (p0, 1)
    else if p0 < 0xC2 ∨ 0xF4 < p0 then (0xFFFD, 1)
    else if t.length + 1 < leadSize p0 then (0xFFFD, 1)
    else
      match t with
      | [] => (0xFFFD, 1)
      | b1 :: t1 =>
        if b1 < acceptLo p0 ∨ acceptHi p0 < b1 then (0xFFFD, 1)
        else if leadSize p0 ≤ 2 then (((p0 &&& 0x1F) <<< 6) ||| (b1 &&& 0x3F), 2)
        else
          match t1 with
          | [] => (0xFFFD, 1)
          | b2 :: t2 =>
            if b2 < 0x80 ∨ 0xBF < b2 then (0xFFFD, 1)
            else if leadSize p0 ≤ 3 then
              (((p0 &&& 0x0F) <<< 12) ||| ((b1 &&& 0x3F) <<< 6) ||| (b2 &&& 0x3F), 3)
            else
              match t2 with
              | [] => (0xFFFD, 1)
              | b3 :: _ =>
                if b3 < 0x80 ∨ 0xBF < b3 then (0xFFFD, 1)
                else
                  (((p0 &&& 0x07) <<< 18) ||| ((b1 &&& 0x3F) <<< 12)
                    ||| ((b2 &&& 0x3F) <<< 6) ||| (b3 &&& 0x3F), 4)

/-- The successive results `(r, wid)` of `in.ReadRune()` on a file holding
`bytes`, up to the call that fails; `fuel` bounds the number of calls. -/
def readRunes : Nat → List Nat → List (Nat × Nat)
  | 0, _ => []
  | _ + 1, [] => []
  | fuel + 1, b :: bs =>
    let rw := DecodeRune (b :: bs)
    rw :: readRunes fuel ((b :: bs).drop rw.2)

/-- All the runes `in.ReadRune()` delivers for a file: every call consumes at
least one byte, so `bytes.length` calls are enough. -/
def decode (bytes : List Nat) : List (Nat × Nat) :=
  readRunes bytes.length bytes

/-- Go's `strconv.IsPrint`, for evaluating concrete inputs. The Latin-1 fast
path is the library's code; beyond U+00FF the library searches generated range
tables, of which only the last range of `isPrint16`, `0xfffc..0xfffd` (it holds
the replacement character U+FFFD), is reproduced: the other code points above
U+00FF are outside this model. General theorems do not use this definition,
they take the classifier as a parameter. -/
def IsPrint (r : Nat) : Bool :=
  if r ≤ 0xFF then
    if 0x20 ≤ r ∧ r ≤ 0x7E then true
    else if 0xA1 ≤ r ∧ r ≤ 0xFF then r != 0xAD
    else false
  else r == 0xFFFC || r == 0xFFFD

/-- The Go function `utf8.RuneCountInString`: the number of runes of a string,
a malformed byte counting as one rune. -/
def RuneCountInString (s : List Nat) : Nat := (decode s).length

/-! ## The program -/

/-- The flag variables `min`, `max`, `ascii`, `search`, `n`, `offset`. -/
structure Flags where
  min : Int
  max : Int
  ascii : Bool
  search : List Nat
  n : Int
  offset : Bool
deriving DecidableEq, Repr

/-- The defaults of the flag declarations (lines 28 to 33). -/
def defaultFlags : Flags :=
  { min := 6, max := 256, ascii := false, search := [], n := 1, offset := true }

/-- Lines 46 to 52 of `main`: a search string forces `*min`, then `*max` is
raised to `*min`. -/
def resolve (f : Flags) : Flags :=
  let min : Int := if f.search ≠ [] then (f.search.length : Int) else f.min
  let max : Int := if f.max < min then min else f.max
  { f with min := min, max := max }

/-- One call of `fmt.Printf("%s:#%d:\t%s\n", name, filePos-int64(len(s)), s)`
(`offset` is `some`) or of `fmt.Println(s)` (`offset` is `none`), where `s` is
`string(str)`. The field `name` is printed only with the offset. -/
structure Record where
  name : String
  offset : Option Int
  str : List Nat
deriving DecidableEq, Repr

/-- The string `s := string(str)` printed by a record. -/
def Record.s (line : Record) : List Nat := runesToString line.str

/-- The variables of `do` (`str`, `filePos`, `searchTimes`), the records
written to the standard output so far, whether `os.Exit(0)` was called, and
whether the process died of a run-time panic. -/
structure State where
  str : List Nat
  filePos : Int
  searchTimes : Int
  out : List Record
  exited : Bool
  panicked : Bool
deriving DecidableEq, Repr

/-- The state of `do` before its loop (lines 72 to 74). -/
def State.init : State :=
  { str := [], filePos := 0, searchTimes := 0, out := [], exited := false, panicked := false }

/-- The closure `print` of `do` (lines 75 to 95). When `os.Exit(0)` is reached
the state is left as it is at that call, with `exited` set. -/
def print (f : Flags) (name : String) (st : State) : State :=
  if f.min ≤ (st.str.length : Int) then
    let s := runesToString st.str
    if f.search = [] ∨ Contains s f.search = true then
      let searchTimes : Int :=
        if 0 < st.searchTimes ∨ (f.search ≠ [] ∧ Contains s f.search = true) then
          st.searchTimes + 1
        else st.searchTimes
      let line : Record :=
        { name := name
          offset := if f.offset then some (st.filePos - (s.length : Int)) else none
          str := st.str }
      if 0 < f.n ∧ f.n ≤ searchTimes then
        { st with searchTimes := searchTimes, out := st.out ++ [line], exited := true }
      else
        { st with str := [], searchTimes := searchTimes, out := st.out ++ [line] }
    else { st with str := [] }
  else { st with str := [] }

/-- The test of line 110: the rune ends the current string. -/
def nonPrintable (isPrint : Nat → Bool) (f : Flags) (r : Nat) : Bool :=
  !isPrint r || (f.ascii && decide (0xFF ≤ r))

/-- One iteration of the inner loop (lines 103 to 119) for a successful
`ReadRune` result `(r, wid)`, its post statement `filePos += int64(wid)`
included. -/
def step (isPrint : Nat → Bool) (f : Flags) (name : String) (st : State)
    (rw : Nat × Nat) : State :=
  if nonPrintable isPrint f rw.1 then
    let st1 := print f name st
    if st1.exited then st1 else { st1 with filePos := st1.filePos + (rw.2 : Int) }
  else
    let st1 := if f.max ≤ (st.str.length : Int) then print f name st else st
    if st1.exited then st1
    else { st1 with str := st1.str ++ [rw.1], filePos := st1.filePos + (rw.2 : Int) }

/-- The loop of `do` (lines 96 to 120) over the successive `ReadRune` results.
At the end of the list `ReadRune` fails, with `io.EOF` or with another error
that line 106 only logs, and in both cases `do` returns (line 108). -/
def loop (isPrint : Nat → Bool) (f : Flags) (name : String) :
    List (Nat × Nat) → State → State
  | [], st => st
  | rw :: rest, st =>
    let st1 := step isPrint f name st rw
    if st1.exited then st1 else loop isPrint f name rest st1

/-- The constant `maxAlloc` of the Go runtime, in bytes: `2^48` on the 64-bit
platforms. -/
def maxAlloc : Int := 0x1000000000000

/-- The run-time check of `make([]rune, 0, cap)` (`runtime.makeslice`): the
call panics when the capacity is negative or when its size, 4 bytes for every
rune, exceeds `maxAlloc`. An allocation within that limit that the operating
system cannot serve is outside the model. -/
def makePanics (cap : Int) : Prop := cap < 0 ∨ maxAlloc < 4 * cap

instance (cap : Int) : Decidable (makePanics cap) := by
  unfold makePanics; infer_instance

/-- The function `do` on an already decoded stream of `ReadRune` results.
When `make([]rune, 0, *max)` at line 72 panics, nothing is read or printed. -/
def scan (isPrint : Nat → Bool) (f : Flags) (name : String)
    (rs : List (Nat × Nat)) : State :=
  if makePanics f.max then { State.init with panicked := true }
  else loop isPrint f name rs State.init

/-- The function `do` (lines 70 to 121) on a file holding `bytes`. -/
def doFile (isPrint : Nat → Bool) (f : Flags) (name : String) (bytes : List Nat) : State :=
  scan isPrint f name (decode bytes)

/-- The bytes of an ASCII string literal. -/
def asciiBytes (s : String) : List Nat := s.toList.map Char.toNat

/-- The scenario input of the specification: `hello world`, the bytes 0 and 1,
`binary`, the byte 2, `longenoughtext`. -/
def sampleInput : List Nat :=
  asciiBytes "hello world" ++ [0, 1] ++ asciiBytes "binary" ++ [2] ++ asciiBytes "longenoughtext"

/-- The condition under which `print` writes a record (lines 76 and 78). -/
def emits (f : Flags) (str : List Nat) : Prop :=
  f.min ≤ (str.length : Int) ∧
    (f.search = [] ∨ Contains (runesToString str) f.search = true)

instance (f : Flags) (str : List Nat) : Decidable (emits f str) := by
  unfold emits; infer_instance

/-- Flags as `main` leaves them after lines 46 to 52. -/
def Resolved (f : Flags) : Prop :=
  (f.search ≠ [] → f.min = (f.search.length : Int)) ∧ f.min ≤ f.max

instance (f : Flags) : Decidable (Resolved f) := by
  unfold Resolved; infer_instance

/-- The stream read so far is empty or ends with a rune that ends a string, so
that the next rune starts a new run. -/
def atBoundary (isPrint : Nat → Bool) (f : Flags) (pre : List (Nat × Nat)) : Prop :=
  ∀ x, pre.getLast? = some x → nonPrintable isPrint f x.1 = true

/-- A command-line argument of `main`: the file name and, when `os.Open`
succeeds, the bytes of the file. -/
structure Arg where
  name : String
  file : Option (List Nat)

/-- What a run of the program leaves: the records printed, whether it ended
through `os.Exit(0)` inside `print`, and whether it died of a panic. -/
structure Outcome where
  out : List Record
  exited : Bool
  panicked : Bool
deriving DecidableEq, Repr

/-- The loop of `main` over `flag.Args()` (lines 57 to 66), given the records
printed so far. A file that cannot be opened is skipped; `os.Exit(0)` or a panic
inside `do` ends the process. -/
def mainLoop (isPrint : Nat → Bool) (f : Flags) : List Arg → List Record → Outcome
  | [], out => { out := out, exited := false, panicked := false }
  | a :: rest, out =>
    match a.file with
    | none => mainLoop isPrint f rest out
    | some bytes =>
      let st := doFile isPrint f a.name bytes
      if st.exited || st.panicked then
        { out := out ++ st.out, exited := st.exited, panicked := st.panicked }
      else mainLoop isPrint f rest (out ++ st.out)

/-- The function `main` (lines 38 to 68) for the flag values `flags`, the file
arguments `args` and the bytes of the standard input. -/
def main (isPrint : Nat → Bool) (flags : Flags) (args : List Arg) (stdin : List Nat) :
    Outcome :=
  let f := resolve flags
  match args with
  | [] =>
    let st := doFile isPrint f "<stdin>" stdin
    { out := st.out, exited := st.exited, panicked := st.panicked }
  | _ :: _ => mainLoop isPrint f args []

/-- Every printable rune of the stream was read with the width of its UTF-8
encoding: no malformed byte was kept in a run. -/
def wellFormed (isPrint : Nat → Bool) (f : Flags) (rs : List (Nat × Nat)) : Prop :=
  ∀ x ∈ rs, nonPrintable isPrint f x.1 = false → x.2 = (encodeRune x.1).length

/-- The record `line` is printed for the run `b` of the stream `all`, and its
offset, when shown, is the number of bytes read before `b`. -/
def startsAt (all : List (Nat × Nat)) (line : Record) : Prop :=
  ∃ a b c : List (Nat × Nat), all = a ++ b ++ c ∧ b.map Prod.fst = line.str ∧
    ∀ o, line.offset = some o → o = (((a.map Prod.snd).sum : Nat) : Int)

/-- The bookkeeping of the match counter under a search string and a positive
`*n`: `searchTimes` counts the records printed, there are at most `*n` of them,
and the process has exited exactly when there are `*n`. -/
def matchInv (f : Flags) (st : State) : Prop :=
  st.searchTimes = (st.out.length : Int) ∧ (st.out.length : Int) ≤ f.n ∧
    (st.exited = true ↔ (st.out.length : Int) = f.n)

/-- The sources `main` scans, in order: the standard input when there is no
file argument (line 55), the file arguments otherwise. -/
def sources (args : List Arg) (stdin : List Nat) : List Arg :=
  match args with
  | [] => [{ name := "<stdin>", file := some stdin }]
  | _ :: _ => args

/-- The records `do` prints for one source by itself; nothing for a file that
cannot be opened. -/
def sourceOut (isPrint : Nat → Bool) (f : Flags) (a : Arg) : List Record :=
  match a.file with
  | none => []
  | some bytes => (doFile isPrint f a.name bytes).out

/-- The source can be opened and `do`, run on it alone, prints `*n` records. -/
def reachesLimit (isPrint : Nat → Bool) (f : Flags) (a : Arg) : Prop :=
  ∃ bytes, a.file = some bytes ∧ ((doFile isPrint f a.name bytes).out.length : Int) = f.n

/-! ## The reference definition of the output -/

/-- Consecutive chunks of `k` elements of a list, the last one possibly
shorter; `fuel` bounds the number of chunks. -/
def chunksFuel (k : Nat) : Nat → List Nat → List (List Nat)
  | 0, _ => []
  | _ + 1, [] => []
  | fuel + 1, x :: xs => (x :: xs).take k :: chunksFuel k fuel ((x :: xs).drop k)

/-- The consecutive chunks of `k` elements of a list (for `k ≥ 1` a list has
at most as many chunks as elements). -/
def chunks (k : Nat) (xs : List Nat) : List (List Nat) := chunksFuel k xs.length xs

/-- The test of the reference definition: the chunk has at least `*min` runes
and its text contains the search string, if there is one. -/
def qualifies (f : Flags) (c : List Nat) : Bool :=
  decide (f.min ≤ (c.length : Int)) &&
    (decide (f.search = []) || decide (f.search <:+: runesToString c))

/-- The output as the specification describes it: split the stream at the
non-printable runes into maximal printable segments, cut every segment into
consecutive chunks of `*max` runes, keep the chunks that qualify. -/
def refOutput (isPrint : Nat → Bool) (f : Flags) (rs : List (Nat × Nat)) : List (List Nat) :=
  (((rs.map Prod.fst).splitOnP (nonPrintable isPrint f)).flatMap
    (chunks f.max.toNat)).filter (qualifies f)

/-! ## General lemmas on `print`, `step` and `loop` -/

theorem print_of_not_emits (f : Flags) (name : String) (st : State)
    (h : ¬ emits f st.str) : print f name st = { st with str := [] } := by
  unfold emits at h
  unfold print
  by_cases h1 : f.min ≤ (st.str.length : Int)
  · have h2 : ¬ (f.search = [] ∨ Contains (runesToString st.str) f.search = true) :=
      fun h2 => h ⟨h1, h2⟩
    simp only [h1, h2, if_true, if_false]
  · simp only [h1, if_false]

theorem print_out_of_emits (f : Flags) (name : String) (st : State)
    (h : emits f st.str) :
    (print f name st).out = st.out ++
      [{ name := name
         offset := if f.offset then
           some (st.filePos - ((runesToString st.str).length : Int)) else none
         str := st.str }] := by
  obtain ⟨h1, h2⟩ := h
  simp only [print, h1, h2, if_true]
  split_ifs <;> rfl

theorem print_str (f : Flags) (name : String) (st : State) :
    (print f name st).str = [] ∨
      ((print f name st).exited = true ∧ (print f name st).str = st.str) := by
  simp only [print]
  split_ifs <;> simp

theorem print_filePos (f : Flags) (name : String) (st : State) :
    (print f name st).filePos = st.filePos := by
  simp only [print]
  split_ifs <;> rfl

theorem print_str_of_not_exited (f : Flags) (name : String) (st : State)
    (h : (print f name st).exited = false) : (print f name st).str = [] := by
  rcases print_str f name st with h1 | ⟨h1, _⟩
  · exact h1
  · rw [h] at h1; exact absurd h1 (by decide)

/-- Invariants of the loop: a property `B` of the buffer `str` and a property
`R` of the printed records, when `B` survives an append that the test of line
115 allows and `R` holds of every buffer that `print` writes. -/
theorem loop_invariant (isPrint : Nat → Bool) (f : Flags) (name : String)
    (B : List Nat → Prop) (R : Record → Prop) (hnil : B [])
    (happ : ∀ str r, B str → nonPrintable isPrint f r = false →
      ((str.length : Int) < f.max ∨ str = []) → B (str ++ [r]))
    (hrec : ∀ str, B str → emits f str → ∀ nm off, R ⟨nm, off, str⟩) :
    ∀ (rs : List (Nat × Nat)) (st : State), B st.str → (∀ line ∈ st.out, R line) →
      B (loop isPrint f name rs st).str ∧ ∀ line ∈ (loop isPrint f name rs st).out, R line := by
  have hprint : ∀ st : State, B st.str → (∀ line ∈ st.out, R line) →
      B (print f name st).str ∧ (∀ line ∈ (print f name st).out, R line) := by
    intro st hB hR
    constructor
    · rcases print_str f name st with h | ⟨_, h⟩
      · rw [h]; exact hnil
      · rw [h]; exact hB
    · by_cases he : emits f st.str
      · rw [print_out_of_emits f name st he]
        intro line hl
        rcases List.mem_append.1 hl with hl | hl
        · exact hR line hl
        · rw [List.mem_singleton.1 hl]; exact hrec st.str hB he _ _
      · rw [print_of_not_emits f name st he]; exact hR
  have hstep : ∀ (st : State) (rw : Nat × Nat), B st.str → (∀ line ∈ st.out, R line) →
      B (step isPrint f name st rw).str ∧ (∀ line ∈ (step isPrint f name st rw).out, R line) := by
    intro st rw hB hR
    unfold step
    by_cases hnp : nonPrintable isPrint f rw.1 = true
    · simp only [hnp, if_true]
      have hp := hprint st hB hR
      split_ifs
      · exact hp
      · exact hp
    · have hnp2 : nonPrintable isPrint f rw.1 = false := by simpa using hnp
      simp only [hnp2]
      by_cases hmax : f.max ≤ (st.str.length : Int)
      · simp only [hmax, if_true]
        have hp := hprint st hB hR
        by_cases hex : (print f name st).exited = true
        · simp only [hex, if_true]; exact hp
        · have hex2 : (print f name st).exited = false := by simpa using hex
          simp only [hex2]
          refine ⟨?_, hp.2⟩
          have hs := print_str_of_not_exited f name st hex2
          exact happ _ _ hp.1 hnp2 (Or.inr hs)
      · simp only [hmax, if_false]
        by_cases hex : st.exited = true
        · simp only [hex, if_true]; exact ⟨hB, hR⟩
        · simp only [hex]
          exact ⟨happ _ _ hB hnp2 (Or.inl (lt_of_not_le hmax)), hR⟩
  intro rs
  induction rs with
  | nil => intro st hB hR; exact ⟨hB, hR⟩
  | cons rw rest ih =>
    intro st hB hR
    have hs := hstep st rw hB hR
    unfold loop
    by_cases hex : (step isPrint f name st rw).exited = true
    · simp only [hex, if_true]; exact hs
    · simp only [hex]; exact ih _ hs.1 hs.2

theorem hasPrefix_iff (s p : List Nat) : HasPrefix s p = true ↔ p <+: s := by
  induction s generalizing p with
  | nil =>
    cases p with
    | nil => simp [HasPrefix]
    | cons b p => simp [HasPrefix]
  | cons a s ih =>
    cases p with
    | nil => simp [HasPrefix]
    | cons b p =>
      simp only [HasPrefix, Bool.and_eq_true, beq_iff_eq, ih, List.cons_prefix_cons]
      constructor
      · rintro ⟨h1, h2⟩; exact ⟨h1.symm, h2⟩
      · rintro ⟨h1, h2⟩; exact ⟨h1.symm, h2⟩

/-- The function `Contains` decides the infix relation on byte strings. -/
theorem contains_iff (s substr : List Nat) : Contains s substr = true ↔ substr <:+: s := by
  induction s with
  | nil => simp [Contains, hasPrefix_iff]
  | cons a s ih =>
    simp only [Contains, Bool.or_eq_true, hasPrefix_iff, ih, List.infix_cons_iff]

theorem loop_append (isPrint : Nat → Bool) (f : Flags) (name : String)
    (a b : List (Nat × Nat)) (st : State) (h : st.exited = false) :
    loop isPrint f name (a ++ b) st =
      if (loop isPrint f name a st).exited then loop isPrint f name a st
      else loop isPrint f name b (loop isPrint f name a st) := by
  induction a generalizing st with
  | nil => simp [loop, h]
  | cons rw rest ih =>
    simp only [List.cons_append, loop]
    by_cases hex : (step isPrint f name st rw).exited = true
    · simp [hex]
    · have hex2 : (step isPrint f name st rw).exited = false := by simpa using hex
      simp only [hex2]
      exact ih _ hex2

theorem not_makePanics_iff (cap : Int) :
    ¬ makePanics cap ↔ 0 ≤ cap ∧ 4 * cap ≤ maxAlloc := by
  unfold makePanics
  constructor
  · intro h; constructor <;> [skip; skip] <;> by_contra hc <;> apply h
    · left; omega
    · right; omega
  · rintro ⟨h1, h2⟩ h
    rcases h with h | h <;> omega

theorem scan_of_alloc (isPrint : Nat → Bool) (f : Flags) (name : String)
    (rs : List (Nat × Nat)) (h : ¬ makePanics f.max) :
    scan isPrint f name rs = loop isPrint f name rs State.init := by
  simp [scan, h]

theorem scan_of_panic (isPrint : Nat → Bool) (f : Flags) (name : String)
    (rs : List (Nat × Nat)) (h : makePanics f.max) :
    scan isPrint f name rs = { State.init with panicked := true } := by
  simp [scan, h]

/-- The invariants of `loop_invariant` hold of every scan. -/
theorem scan_invariant (isPrint : Nat → Bool) (f : Flags) (name : String)
    (B : List Nat → Prop) (R : Record → Prop) (hnil : B [])
    (happ : ∀ str r, B str → nonPrintable isPrint f r = false →
      ((str.length : Int) < f.max ∨ str = []) → B (str ++ [r]))
    (hrec : ∀ str, B str → emits f str → ∀ nm off, R ⟨nm, off, str⟩)
    (rs : List (Nat × Nat)) :
    B (scan isPrint f name rs).str ∧ ∀ line ∈ (scan isPrint f name rs).out, R line := by
  by_cases hneg : makePanics f.max
  · rw [scan_of_panic isPrint f name rs hneg]
    exact ⟨hnil, by intro line hl; simp [State.init] at hl⟩
  · rw [scan_of_alloc isPrint f name rs hneg]
    exact loop_invariant isPrint f name B R hnil happ hrec rs State.init hnil
      (by intro line hl; simp [State.init] at hl)

theorem scan_append (isPrint : Nat → Bool) (f : Flags) (name : String)
    (a b : List (Nat × Nat)) (h : ¬ makePanics f.max) :
    scan isPrint f name (a ++ b) =
      if (scan isPrint f name a).exited then scan isPrint f name a
      else loop isPrint f name b (scan isPrint f name a) := by
  rw [scan_of_alloc isPrint f name _ h, scan_of_alloc isPrint f name _ h]
  exact loop_append isPrint f name a b State.init rfl

theorem loop_cons_of_not_exited (isPrint : Nat → Bool) (f : Flags) (name : String)
    (rw : Nat × Nat) (rest : List (Nat × Nat)) (st : State)
    (h : (step isPrint f name st rw).exited = false) :
    loop isPrint f name (rw :: rest) st = loop isPrint f name rest (step isPrint f name st rw) := by
  simp [loop, h]

theorem loop_singleton (isPrint : Nat → Bool) (f : Flags) (name : String)
    (rw : Nat × Nat) (st : State) : loop isPrint f name [rw] st = step isPrint f name st rw := by
  simp [loop]

theorem step_nonPrintable (isPrint : Nat → Bool) (f : Flags) (name : String)
    (st : State) (rw : Nat × Nat) (h : nonPrintable isPrint f rw.1 = true) :
    step isPrint f name st rw =
      if (print f name st).exited then print f name st
      else { print f name st with filePos := (print f name st).filePos + (rw.2 : Int) } := by
  simp [step, h]

theorem step_printable (isPrint : Nat → Bool) (f : Flags) (name : String)
    (st : State) (rw : Nat × Nat) (h : nonPrintable isPrint f rw.1 = false) :
    step isPrint f name st rw =
      if (if f.max ≤ (st.str.length : Int) then print f name st else st).exited then
        (if f.max ≤ (st.str.length : Int) then print f name st else st)
      else
        { (if f.max ≤ (st.str.length : Int) then print f name st else st) with
          str := (if f.max ≤ (st.str.length : Int) then print f name st else st).str ++ [rw.1]
          filePos := (if f.max ≤ (st.str.length : Int) then print f name st else st).filePos
            + (rw.2 : Int) } := by
  simp [step, h]

/-- After a rune that ends a string, the buffer is empty unless the process
has exited. -/
theorem scan_atBoundary (isPrint : Nat → Bool) (f : Flags) (name : String)
    (pre : List (Nat × Nat)) (h : atBoundary isPrint f pre) :
    (scan isPrint f name pre).exited = true ∨ (scan isPrint f name pre).str = [] := by
  by_cases hneg : makePanics f.max
  · right; rw [scan_of_panic isPrint f name pre hneg]; rfl
  have hmax : ¬ makePanics f.max := hneg
  rcases List.eq_nil_or_concat pre with hnil | ⟨pre0, x, hx⟩
  · subst hnil; right; rw [scan_of_alloc isPrint f name _ hmax]; rfl
  · rw [List.concat_eq_append] at hx
    subst hx
    have hnp : nonPrintable isPrint f x.1 = true := h x (by simp)
    rw [scan_append isPrint f name _ _ hmax]
    by_cases hex : (scan isPrint f name pre0).exited = true
    · left; simp [hex]
    · have hex2 : (scan isPrint f name pre0).exited = false := by simpa using hex
      simp only [hex2, loop_singleton, step_nonPrintable isPrint f name _ x hnp]
      by_cases hp : (print f name (scan isPrint f name pre0)).exited = true
      · left; simp [hp]
      · right
        have hp2 : (print f name (scan isPrint f name pre0)).exited = false := by simpa using hp
        simp [hp2, print_str_of_not_exited f name _ hp2]

/-- Printable runes that cannot fill the buffer up to `*min` print nothing. -/
theorem loop_short_run (isPrint : Nat → Bool) (f : Flags) (name : String)
    (run : List (Nat × Nat)) (hrun : ∀ x ∈ run, nonPrintable isPrint f x.1 = false) :
    ∀ st : State, st.exited = false → ((st.str.length : Int) + (run.length : Int) < f.min) →
      (loop isPrint f name run st).out = st.out ∧
      (loop isPrint f name run st).exited = false ∧
      (loop isPrint f name run st).searchTimes = st.searchTimes ∧
      ((loop isPrint f name run st).str.length : Int) ≤ (st.str.length : Int) + (run.length : Int) := by
  induction run with
  | nil => intro st hex _; simp [loop, hex]
  | cons rw rest ih =>
    intro st hex hlen
    have hrw : nonPrintable isPrint f rw.1 = false := hrun rw (by simp)
    have hrest : ∀ x ∈ rest, nonPrintable isPrint f x.1 = false :=
      fun x hx => hrun x (by simp [hx])
    have hl : ((rw :: rest).length : Int) = (rest.length : Int) + 1 := by simp
    rw [hl] at hlen ⊢
    have hne : ¬ emits f st.str := fun he => by
      have := he.1; have h0 : (0 : Int) ≤ (rest.length : Int) := Int.natCast_nonneg _; omega
    have key : (step isPrint f name st rw).out = st.out ∧
        (step isPrint f name st rw).exited = false ∧
        (step isPrint f name st rw).searchTimes = st.searchTimes ∧
        ((step isPrint f name st rw).str.length : Int) ≤ (st.str.length : Int) + 1 := by
      rw [step_printable isPrint f name st rw hrw, print_of_not_emits f name st hne]
      by_cases hmax : f.max ≤ (st.str.length : Int)
      · simp only [hmax, if_true, hex]
        simp
      · simp only [hmax, if_false, hex]
        simp
    obtain ⟨k1, k2, k3, k4⟩ := key
    have hih := ih hrest (step isPrint f name st rw) k2 (by omega)
    simp only [loop, k2]
    obtain ⟨i1, i2, i3, i4⟩ := hih
    refine ⟨?_, ?_, ?_, ?_⟩
    · simpa [k1] using i1
    · simpa using i2
    · simpa [k3] using i3
    · have : ((loop isPrint f name rest (step isPrint f name st rw)).str.length : Int)
          ≤ (st.str.length : Int) + ((rest.length : Int) + 1) := by omega
      simpa using this

/-- C3 (minimum length): every record printed by a scan holds a run of at least
`*min` runes; and a run of exactly `*min - 1` printable runes that starts a new
string (at the start of the file or after a rune that ends a string) and is
followed by a non-printable rune adds no record to the output. -/
theorem C3_min_length (isPrint : Nat → Bool) (f : Flags) (name : String) :
    (∀ (rs : List (Nat × Nat)), ∀ line ∈ (scan isPrint f name rs).out,
        f.min ≤ (line.str.length : Int)) ∧
    (∀ (pre run : List (Nat × Nat)) (np : Nat × Nat),
        atBoundary isPrint f pre →
        (∀ x ∈ run, nonPrintable isPrint f x.1 = false) →
        nonPrintable isPrint f np.1 = true →
        (run.length : Int) = f.min - 1 →
        (scan isPrint f name (pre ++ run ++ [np])).out = (scan isPrint f name pre).out) := by
  constructor
  · intro rs
    have h := scan_invariant isPrint f name (fun _ => True)
      (fun line => f.min ≤ (line.str.length : Int)) trivial
      (fun _ _ _ _ _ => trivial) (fun str _ he _ _ => he.1) rs
    exact h.2
  · intro pre run np hpre hrun hnp hlen
    by_cases hneg : makePanics f.max
    · rw [scan_of_panic isPrint f name _ hneg, scan_of_panic isPrint f name _ hneg]
    rw [List.append_assoc, scan_append isPrint f name _ _ hneg]
    rcases scan_atBoundary isPrint f name pre hpre with hex | hstr
    · simp [hex]
    · by_cases hex : (scan isPrint f name pre).exited = true
      · simp [hex]
      · have hex2 : (scan isPrint f name pre).exited = false := by simpa using hex
        simp only [hex2]
        obtain ⟨h1, h2, _, h4⟩ := loop_short_run isPrint f name run hrun
          (scan isPrint f name pre) hex2 (by rw [hstr]; simp; omega)
        rw [loop_append isPrint f name run [np] _ hex2]
        simp only [h2, loop_singleton, step_nonPrintable isPrint f name _ np hnp]
        have hne : ¬ emits f (loop isPrint f name run (scan isPrint f name pre)).str := by
          intro he
          have := he.1
          rw [hstr] at h4
          simp at h4
          omega
        rw [print_of_not_emits f name _ hne]
        simp [h2, h1]

/-- C3 at concrete inputs: the record printed for `binary` followed by a zero
byte has at least six runes, and with `*min = 6` the five printable runes of
`hello` followed by a zero byte print nothing. -/
theorem C3_min_length_witness :
    defaultFlags.min ≤ (((⟨"f", some 0, asciiBytes "binary"⟩ : Record).str.length : Nat) : Int) ∧
    (scan IsPrint defaultFlags "f" ([] ++ (asciiBytes "hello").map (fun b => (b, 1)) ++ [(0, 1)])).out
      = [] :=
  ⟨(C3_min_length IsPrint defaultFlags "f").1 ((asciiBytes "binary" ++ [0]).map (fun b => (b, 1)))
      ⟨"f", some 0, asciiBytes "binary"⟩ (by decide),
   (C3_min_length IsPrint defaultFlags "f").2 [] ((asciiBytes "hello").map (fun b => (b, 1))) (0, 1)
    (by intro x hx; simp at hx) (by decide) (by decide) (by decide)⟩

/-- C4, as stated, fails when `*max` is not positive: with `-min 0 -max 0`
(flags that lines 46 to 52 leave unchanged) and the file `ab`, the buffer holds
one rune after the first read, and the second read prints the run `a` of one
rune, more than `*max = 0`. -/
theorem C4_max_length_counterexample :
    resolve { min := 0, max := 0, ascii := false, search := [], n := 1, offset := true }
      = { min := 0, max := 0, ascii := false, search := [], n := 1, offset := true } ∧
    (doFile IsPrint { min := 0, max := 0, ascii := false, search := [], n := 1, offset := true }
      "f" (asciiBytes "ab")).str = [98] ∧
    (doFile IsPrint { min := 0, max := 0, ascii := false, search := [], n := 1, offset := true }
      "f" (asciiBytes "ab")).out = [⟨"f", some 0, []⟩, ⟨"f", some 0, [97]⟩] ∧
    ¬ (([97] : List Nat).length : Int) ≤ (0 : Int) := by
  decide

/-- C4 (maximum length), amended: for resolved flags with `*max` at least 1, at
every point of a scan the buffer `str` holds at most `*max` runes, and every
printed run has at most `*max` runes. -/
theorem C4_max_length (isPrint : Nat → Bool) (f : Flags) (name : String)
    (rs : List (Nat × Nat)) (_hres : Resolved f) (hmax : 1 ≤ f.max) :
    ((scan isPrint f name rs).str.length : Int) ≤ f.max ∧
    ∀ line ∈ (scan isPrint f name rs).out, (line.str.length : Int) ≤ f.max := by
  have h := scan_invariant isPrint f name (fun str => (str.length : Int) ≤ f.max)
    (fun line => (line.str.length : Int) ≤ f.max) (by simp; omega)
    (by
      intro str r hB _ hlt
      rcases hlt with hlt | hnil
      · simp only [List.length_append, List.length_singleton, Nat.cast_add, Nat.cast_one]
        omega
      · subst hnil; simpa using hmax)
    (fun str hB _ _ _ => hB) rs
  exact h

/-- C4 at a concrete input: with the default flags the record printed for
`binary` followed by a zero byte has at most 256 runes. -/
theorem C4_max_length_witness :
    Resolved defaultFlags ∧ (1 : Int) ≤ defaultFlags.max ∧
    (((⟨"f", some 0, asciiBytes "binary"⟩ : Record).str.length : Nat) : Int) ≤ defaultFlags.max :=
  ⟨by decide, by decide,
   (C4_max_length IsPrint defaultFlags "f" ((asciiBytes "binary" ++ [0]).map (fun b => (b, 1)))
      (by decide) (by decide)).2 ⟨"f", some 0, asciiBytes "binary"⟩ (by decide)⟩

/-- C5 (search filter): with a non-empty search string, the text of every
printed record contains the search string as a contiguous block of bytes. -/
theorem C5_search_filter (isPrint : Nat → Bool) (f : Flags) (name : String)
    (rs : List (Nat × Nat)) (hs : f.search ≠ []) :
    ∀ line ∈ (scan isPrint f name rs).out, f.search <:+: line.s := by
  have h := scan_invariant isPrint f name (fun _ => True)
    (fun line => f.search <:+: line.s) trivial (fun _ _ _ _ _ => trivial)
    (by
      intro str _ he nm off
      rcases he.2 with h0 | h1
      · exact absurd h0 hs
      · exact (contains_iff _ _).1 h1)
    rs
  exact h.2

/-- C5 at a concrete input: searching `wor` in `hello world` followed by a zero
byte prints a record whose text contains `wor`. -/
theorem C5_search_filter_witness :
    (resolve { defaultFlags with search := asciiBytes "wor" }).search ≠ [] ∧
    (resolve { defaultFlags with search := asciiBytes "wor" }).search <:+:
      (⟨"f", some 0, asciiBytes "hello world"⟩ : Record).s :=
  ⟨by decide,
   C5_search_filter IsPrint (resolve { defaultFlags with search := asciiBytes "wor" }) "f"
     ((asciiBytes "hello world" ++ [0]).map (fun b => (b, 1))) (by decide)
     ⟨"f", some 0, asciiBytes "hello world"⟩ (by decide)⟩

/-- C8 (byte-range restriction): with `-ascii`, no printed run holds a rune
that is `0xFF` or greater. -/
theorem C8_ascii_below_0xFF (isPrint : Nat → Bool) (f : Flags) (name : String)
    (rs : List (Nat × Nat)) (ha : f.ascii = true) :
    ∀ line ∈ (scan isPrint f name rs).out, ∀ r ∈ line.str, r < 0xFF := by
  have h := scan_invariant isPrint f name (fun str => ∀ r ∈ str, r < 0xFF)
    (fun line => ∀ r ∈ line.str, r < 0xFF) (by simp)
    (by
      intro str r hB hnp _ x hx
      rcases List.mem_append.1 hx with hx | hx
      · exact hB x hx
      · rw [List.mem_singleton.1 hx]
        simp only [nonPrintable, ha, Bool.true_and, Bool.or_eq_false_iff,
          decide_eq_false_iff_not, not_le] at hnp
        exact hnp.2)
    (fun str hB _ _ _ => hB) rs
  exact h.2

/-- C8 at a concrete input: with `-ascii`, the runes of the record printed for
`binary` followed by a zero byte are below `0xFF`. -/
theorem C8_ascii_below_0xFF_witness :
    ({ defaultFlags with ascii := true } : Flags).ascii = true ∧ (98 : Nat) < 0xFF :=
  ⟨rfl,
   C8_ascii_below_0xFF IsPrint { defaultFlags with ascii := true } "f"
     ((asciiBytes "binary" ++ [0]).map (fun b => (b, 1))) rfl
     ⟨"f", some 0, asciiBytes "binary"⟩ (by decide) 98 (by decide)⟩

/-! ## The reader -/

theorem DecodeRune_width (b : Nat) (bs : List Nat) :
    1 ≤ (DecodeRune (b :: bs)).2 ∧ (DecodeRune (b :: bs)).2 ≤ bs.length + 1 := by
  generalize hsz : leadSize b = sz
  generalize hlo : acceptLo b = lo
  generalize hhi : acceptHi b = hi
  rcases bs with _ | ⟨b1, _ | ⟨b2, _ | ⟨b3, t3⟩⟩⟩ <;>
    simp only [DecodeRune, hsz, hlo, hhi] <;> split_ifs <;> simp

/-- Fuel beyond the number of bytes does not change what the reader delivers. -/
theorem readRunes_fuel (fuel1 : Nat) :
    ∀ (fuel2 : Nat) (bs : List Nat), bs.length ≤ fuel1 → bs.length ≤ fuel2 →
      readRunes fuel1 bs = readRunes fuel2 bs := by
  induction fuel1 with
  | zero =>
    intro fuel2 bs h1 _
    have : bs = [] := List.length_eq_zero.1 (by omega)
    subst this
    cases fuel2 <;> simp [readRunes]
  | succ n ih =>
    intro fuel2 bs h1 h2
    cases bs with
    | nil => cases fuel2 <;> simp [readRunes]
    | cons b bs =>
      cases fuel2 with
      | zero => simp at h2
      | succ m =>
        simp only [readRunes]
        have hw := DecodeRune_width b bs
        have hd : ((b :: bs).drop (DecodeRune (b :: bs)).2).length ≤ bs.length := by
          simp only [List.length_drop, List.length_cons]; omega
        simp only [List.length_cons] at h1 h2
        rw [ih m _ (by omega) (by omega)]

/-- The reader consumes the whole file: the widths it reports add up to the
number of bytes. -/
theorem decode_widths (bs : List Nat) :
    ((decode bs).map Prod.snd).sum = bs.length := by
  unfold decode
  generalize hn : bs.length = n
  induction n using Nat.strong_induction_on generalizing bs with
  | _ n ih =>
    cases bs with
    | nil => subst hn; simp [readRunes]
    | cons b bs =>
      subst hn
      simp only [List.length_cons, readRunes, List.map_cons, List.sum_cons]
      have hw := DecodeRune_width b bs
      have hlen : ((b :: bs).drop (DecodeRune (b :: bs)).2).length
          = bs.length + 1 - (DecodeRune (b :: bs)).2 := by
        simp [List.length_drop]
      rw [readRunes_fuel bs.length _ _ (by omega) (le_refl _)]
      rw [ih _ (by simp only [List.length_cons]; omega) _ rfl, hlen]
      omega

/-- On ASCII bytes the reader delivers every byte as a rune of width 1. -/
theorem readRunes_ascii (bs : List Nat) (h : ∀ b ∈ bs, b < 0x80) :
    ∀ fuel, bs.length ≤ fuel → readRunes fuel bs = bs.map (fun b => (b, 1)) := by
  induction bs with
  | nil => intro fuel _; cases fuel <;> simp [readRunes]
  | cons b bs ih =>
    intro fuel hf
    cases fuel with
    | zero => simp at hf
    | succ n =>
      have hb : b < 0x80 := h b (by simp)
      have hd : DecodeRune (b :: bs) = (b, 1) := by simp [DecodeRune, hb]
      simp only [readRunes, hd, List.map_cons, List.drop_succ_cons, List.drop_zero]
      rw [ih (fun x hx => h x (by simp [hx])) n (by simpa using hf)]

/-! ## Resolution of the flags -/

theorem resolve_Resolved (f : Flags) : Resolved (resolve f) := by
  unfold Resolved resolve
  constructor
  · intro hs
    simp only at hs
    simp only [hs, if_true, ne_eq, not_false_eq_true]
  · simp only
    split_ifs <;> omega

/-- C7, as stated, fails for a search string with a multi-byte character: for
the search string `é` (the bytes C3 A9, one rune) line 47 sets `*min` to 2. -/
theorem C7_search_forces_min_counterexample :
    decode [0xC3, 0xA9] = [(0xE9, 2)] ∧
    RuneCountInString [0xC3, 0xA9] = 1 ∧
    (resolve { defaultFlags with search := [0xC3, 0xA9] }).min = 2 := by
  decide

/-- C7 (search forces the minimum), amended: for every non-empty search string
and every configured minimum, after resolution `*min` is the length of the
search string in bytes; this is its number of runes when the search string is
ASCII, as the help text of the flag `search` asks. -/
theorem C7_search_forces_min (f : Flags) (hs : f.search ≠ []) :
    (resolve f).min = (f.search.length : Int) ∧
    ((∀ b ∈ f.search, b < 0x80) →
      (resolve f).min = (RuneCountInString f.search : Int)) := by
  have h1 : (resolve f).min = (f.search.length : Int) := by
    simp [resolve, hs]
  refine ⟨h1, fun hascii => ?_⟩
  rw [h1, RuneCountInString, decode, readRunes_ascii f.search hascii _ (le_refl _)]
  simp

/-- C7 at a concrete input: searching `wor` with `-min 10` resolves `*min` to
3, the number of bytes and of runes of `wor`. -/
theorem C7_search_forces_min_witness :
    ({ defaultFlags with min := 10, search := asciiBytes "wor" } : Flags).search ≠ [] ∧
    (resolve { defaultFlags with min := 10, search := asciiBytes "wor" }).min = 3 ∧
    (resolve { defaultFlags with min := 10, search := asciiBytes "wor" }).min
      = (RuneCountInString (asciiBytes "wor") : Int) :=
  ⟨by decide,
   (C7_search_forces_min { defaultFlags with min := 10, search := asciiBytes "wor" } (by decide)).1,
   (C7_search_forces_min { defaultFlags with min := 10, search := asciiBytes "wor" } (by decide)).2
     (by decide)⟩

/-! ## Scans without a search string -/

/-- Without a search string `print` never counts a match and never exits. -/
theorem print_no_search (f : Flags) (name : String) (st : State) (hs : f.search = [])
    (h0 : st.searchTimes = 0) (hex : st.exited = false) :
    (print f name st).searchTimes = 0 ∧ (print f name st).exited = false ∧
    (print f name st).str = [] ∧ (print f name st).filePos = st.filePos ∧
    (print f name st).out = st.out ++
      (if f.min ≤ (st.str.length : Int) then
        [{ name := name
           offset := if f.offset then
             some (st.filePos - ((runesToString st.str).length : Int)) else none
           str := st.str }]
       else []) := by
  simp only [print, hs, h0, ne_eq, not_true_eq_false, false_and, or_false, lt_self_iff_false,
    if_false, true_or, if_true]
  by_cases hmin : f.min ≤ (st.str.length : Int)
  · simp only [hmin, if_true]
    have hn : ¬ (0 < f.n ∧ f.n ≤ 0) := by omega
    simp [hn, hex]
  · simp [hmin, hex]

theorem print_no_search_eq (f : Flags) (name : String) (st : State) (hs : f.search = [])
    (h0 : st.searchTimes = 0) (_hex : st.exited = false) :
    print f name st =
      { st with
        str := []
        out := st.out ++
          (if f.min ≤ (st.str.length : Int) then
            [{ name := name
               offset := if f.offset then
                 some (st.filePos - ((runesToString st.str).length : Int)) else none
               str := st.str }]
           else []) } := by
  simp only [print, hs, h0, ne_eq, not_true_eq_false, false_and, or_false, lt_self_iff_false,
    if_false, true_or, if_true]
  have hn : ¬ (0 < f.n ∧ f.n ≤ 0) := by omega
  by_cases hmin : f.min ≤ (st.str.length : Int)
  · simp only [hmin, if_true, hn, if_false]
  · simp only [hmin, if_false, List.append_nil]

theorem step_no_search (isPrint : Nat → Bool) (f : Flags) (name : String) (st : State)
    (rw : Nat × Nat) (hs : f.search = []) (h0 : st.searchTimes = 0) (hex : st.exited = false) :
    (step isPrint f name st rw).searchTimes = 0 ∧ (step isPrint f name st rw).exited = false := by
  obtain ⟨p1, p2, _, _, _⟩ := print_no_search f name st hs h0 hex
  unfold step
  split_ifs <;> simp_all

theorem loop_no_search (isPrint : Nat → Bool) (f : Flags) (name : String) (hs : f.search = [])
    (rs : List (Nat × Nat)) :
    ∀ st : State, st.searchTimes = 0 → st.exited = false →
      (loop isPrint f name rs st).searchTimes = 0 ∧ (loop isPrint f name rs st).exited = false := by
  induction rs with
  | nil => intro st h0 hex; exact ⟨h0, hex⟩
  | cons rw rest ih =>
    intro st h0 hex
    obtain ⟨s1, s2⟩ := step_no_search isPrint f name st rw hs h0 hex
    simp only [loop, s2]
    exact ih _ s1 s2

/-- Printable runes that fit below `*max` are appended to the buffer, nothing
is printed. -/
theorem loop_fill (isPrint : Nat → Bool) (f : Flags) (name : String)
    (run : List (Nat × Nat)) (hrun : ∀ x ∈ run, nonPrintable isPrint f x.1 = false) :
    ∀ st : State, st.exited = false → ((st.str.length : Int) + (run.length : Int) ≤ f.max) →
      loop isPrint f name run st =
        { st with str := st.str ++ run.map Prod.fst
                  filePos := st.filePos + ((run.map Prod.snd).sum : Nat) } := by
  induction run with
  | nil => intro st _ _; simp [loop]
  | cons rw rest ih =>
    intro st hex hlen
    have hrw : nonPrintable isPrint f rw.1 = false := hrun rw (by simp)
    have hrest : ∀ x ∈ rest, nonPrintable isPrint f x.1 = false :=
      fun x hx => hrun x (by simp [hx])
    have hl : ((rw :: rest).length : Int) = (rest.length : Int) + 1 := by simp
    rw [hl] at hlen
    have hmax : ¬ f.max ≤ (st.str.length : Int) := by
      have h0 : (0 : Int) ≤ (rest.length : Int) := Int.natCast_nonneg _
      omega
    have hstep : step isPrint f name st rw =
        { st with str := st.str ++ [rw.1], filePos := st.filePos + (rw.2 : Int) } := by
      rw [step_printable isPrint f name st rw hrw]
      simp [hmax, hex]
    rw [loop_cons_of_not_exited isPrint f name rw rest st (by rw [hstep]; exact hex), hstep,
      ih hrest { st with str := st.str ++ [rw.1], filePos := st.filePos + (rw.2 : Int) } hex
        (by simp; omega)]
    simp only [List.map_cons, List.sum_cons, List.append_assoc, List.singleton_append,
      Nat.cast_add, add_assoc]

/-- C10 (max-length split): for resolved flags without a search string, a
printable run of exactly `*max + 1` runes that starts a new string (at the
start of the file or after a rune that ends a string) is cut in two: when its
last rune `extra` is read, the first `*max` runes are printed as one record and
the buffer restarts as the single rune `extra`; the non-printable rune that
follows flushes that second run, which is printed when `*min` is at most 1.
(The run is in the buffer, so `make` at line 72 has accepted `*max`.) -/
theorem C10_max_split (isPrint : Nat → Bool) (f : Flags) (name : String)
    (pre first : List (Nat × Nat)) (extra np : Nat × Nat)
    (hres : Resolved f) (hcap : ¬ makePanics f.max) (hs : f.search = [])
    (hpre : atBoundary isPrint f pre)
    (hfirst : ∀ x ∈ first, nonPrintable isPrint f x.1 = false)
    (hlen : (first.length : Int) = f.max)
    (hextra : nonPrintable isPrint f extra.1 = false)
    (hnp : nonPrintable isPrint f np.1 = true) :
    (scan isPrint f name (pre ++ first ++ [extra])).out =
      (scan isPrint f name pre).out ++
        [{ name := name
           offset := if f.offset then
             some ((scan isPrint f name pre).filePos + ((first.map Prod.snd).sum : Nat)
               - ((runesToString (first.map Prod.fst)).length : Int)) else none
           str := first.map Prod.fst }] ∧
    (scan isPrint f name (pre ++ first ++ [extra])).str = [extra.1] ∧
    (scan isPrint f name (pre ++ first ++ [extra] ++ [np])).out.map Record.str =
      (scan isPrint f name pre).out.map Record.str ++ [first.map Prod.fst]
        ++ (if f.min ≤ 1 then [[extra.1]] else []) ∧
    (scan isPrint f name (pre ++ first ++ [extra] ++ [np])).str = [] := by
  have hmax0 : ¬ makePanics f.max := hcap
  obtain ⟨h0, hex⟩ := loop_no_search isPrint f name hs pre State.init rfl rfl
  rw [← scan_of_alloc isPrint f name pre hmax0] at h0 hex
  have hstr : (scan isPrint f name pre).str = [] := by
    rcases scan_atBoundary isPrint f name pre hpre with h | h
    · rw [hex] at h; exact absurd h (by decide)
    · exact h
  -- the first `*max` runes fill the buffer
  have hfill : loop isPrint f name first (scan isPrint f name pre) =
      { str := first.map Prod.fst
        filePos := (scan isPrint f name pre).filePos + ((first.map Prod.snd).sum : Nat)
        searchTimes := 0
        out := (scan isPrint f name pre).out
        exited := false
        panicked := (scan isPrint f name pre).panicked } := by
    rw [loop_fill isPrint f name first hfirst (scan isPrint f name pre) hex
      (by rw [hstr]; simp; omega), hstr, h0, hex, List.nil_append]
  -- reading `extra` prints them and restarts the buffer
  have hfull : f.max ≤ ((first.map Prod.fst).length : Int) := by simp; omega
  have hmin : f.min ≤ ((first.map Prod.fst).length : Int) := by
    have := hres.2; simp; omega
  have hstep : loop isPrint f name (first ++ [extra]) (scan isPrint f name pre) =
      { str := [extra.1]
        filePos := (scan isPrint f name pre).filePos + ((first.map Prod.snd).sum : Nat)
          + (extra.2 : Int)
        searchTimes := 0
        out := (scan isPrint f name pre).out ++
          [{ name := name
             offset := if f.offset then
               some ((scan isPrint f name pre).filePos + ((first.map Prod.snd).sum : Nat)
                 - ((runesToString (first.map Prod.fst)).length : Int)) else none
             str := first.map Prod.fst }]
        exited := false
        panicked := (scan isPrint f name pre).panicked } := by
    rw [loop_append isPrint f name first [extra] _ hex, hfill]
    simp only [Bool.false_eq_true, if_false, loop_singleton,
      step_printable isPrint f name _ extra hextra, hfull, if_true]
    rw [print_no_search_eq f name _ hs rfl rfl]
    simp only [hmin, if_true, Bool.false_eq_true, if_false, List.nil_append]
  have hscan1 : scan isPrint f name (pre ++ first ++ [extra]) =
      loop isPrint f name (first ++ [extra]) (scan isPrint f name pre) := by
    rw [List.append_assoc, scan_append isPrint f name _ _ hmax0, hex]; simp
  have hscan2 : scan isPrint f name (pre ++ first ++ [extra] ++ [np]) =
      step isPrint f name (scan isPrint f name (pre ++ first ++ [extra])) np := by
    rw [scan_append isPrint f name _ _ hmax0, hscan1, hstep]; simp [loop_singleton]
  have hlast : scan isPrint f name (pre ++ first ++ [extra] ++ [np]) =
      { str := []
        filePos := (scan isPrint f name pre).filePos + ((first.map Prod.snd).sum : Nat)
          + (extra.2 : Int) + (np.2 : Int)
        searchTimes := 0
        out := (scan isPrint f name pre).out ++
          [{ name := name
             offset := if f.offset then
               some ((scan isPrint f name pre).filePos + ((first.map Prod.snd).sum : Nat)
                 - ((runesToString (first.map Prod.fst)).length : Int)) else none
             str := first.map Prod.fst }] ++
          (if f.min ≤ 1 then
            [{ name := name
               offset := if f.offset then
                 some ((scan isPrint f name pre).filePos + ((first.map Prod.snd).sum : Nat)
                   + (extra.2 : Int) - ((runesToString [extra.1]).length : Int)) else none
               str := [extra.1] }]
           else [])
        exited := false
        panicked := (scan isPrint f name pre).panicked } := by
    rw [hscan2, hscan1, hstep, step_nonPrintable isPrint f name _ np hnp,
      print_no_search_eq f name _ hs rfl rfl]
    simp only [Bool.false_eq_true, if_false, List.length_singleton, Nat.cast_one]
  refine ⟨by rw [hscan1, hstep], by rw [hscan1, hstep], ?_, by rw [hlast]⟩
  rw [hlast]
  by_cases hm : f.min ≤ 1
  · simp [hm]
  · simp [hm]

/-- C10 at a concrete input: with `-min 2 -max 3`, the run `abcd` followed by a
zero byte is cut into `abc`, which is printed, and `d`, which restarts the
buffer and is dropped by the final flush (one rune is less than `*min`). -/
theorem C10_max_split_witness :
    Resolved { defaultFlags with min := 2, max := 3 } ∧
    (scan IsPrint { defaultFlags with min := 2, max := 3 } "f"
      ([] ++ [(97, 1), (98, 1), (99, 1)] ++ [(100, 1)])).out = [⟨"f", some 0, [97, 98, 99]⟩] ∧
    (scan IsPrint { defaultFlags with min := 2, max := 3 } "f"
      ([] ++ [(97, 1), (98, 1), (99, 1)] ++ [(100, 1)])).str = [100] ∧
    (scan IsPrint { defaultFlags with min := 2, max := 3 } "f"
      ([] ++ [(97, 1), (98, 1), (99, 1)] ++ [(100, 1)] ++ [(0, 1)])).out.map Record.str
        = [[97, 98, 99]] ∧
    (scan IsPrint { defaultFlags with min := 2, max := 3 } "f"
      ([] ++ [(97, 1), (98, 1), (99, 1)] ++ [(100, 1)] ++ [(0, 1)])).str = [] :=
  ⟨by decide,
   C10_max_split IsPrint { defaultFlags with min := 2, max := 3 } "f" []
     [(97, 1), (98, 1), (99, 1)] (100, 1) (0, 1) (by decide) (by decide) rfl
     (by intro x hx; simp at hx) (by decide) (by decide) (by decide) (by decide)⟩

/-! ## Offsets on streams without malformed bytes -/

theorem runesToString_length (isPrint : Nat → Bool) (f : Flags) (b : List (Nat × Nat))
    (hp : ∀ x ∈ b, nonPrintable isPrint f x.1 = false) (hw : wellFormed isPrint f b) :
    ((runesToString (b.map Prod.fst)).length : Int) = (((b.map Prod.snd).sum : Nat) : Int) := by
  induction b with
  | nil => simp [runesToString]
  | cons x rest ih =>
    have hx := hw x (by simp) (hp x (by simp))
    have hrest := ih (fun y hy => hp y (by simp [hy])) (fun y hy => hw y (by simp [hy]))
    simp only [List.map_cons, runesToString, List.length_append, List.sum_cons, Nat.cast_add,
      hrest, hx]

/-- The loop keeps the records where the runs start, as long as the runes kept
in runs were read with the width of their encoding. The stream `all` is what
has been read so far (`a ++ b`, where `b` is the run in the buffer) followed by
what remains to be read. -/
theorem loop_startsAt (isPrint : Nat → Bool) (f : Flags) (name : String)
    (all : List (Nat × Nat)) (hw : wellFormed isPrint f all) :
    ∀ (rs : List (Nat × Nat)) (st : State) (a b : List (Nat × Nat)),
      all = a ++ b ++ rs → b.map Prod.fst = st.str →
      (∀ x ∈ b, nonPrintable isPrint f x.1 = false) →
      st.filePos = ((((a ++ b).map Prod.snd).sum : Nat) : Int) →
      (∀ line ∈ st.out, startsAt all line) →
      ∀ line ∈ (loop isPrint f name rs st).out, startsAt all line := by
  -- what `print` adds to the output
  have hprint : ∀ (st : State) (a b c : List (Nat × Nat)), all = a ++ b ++ c →
      b.map Prod.fst = st.str → (∀ x ∈ b, nonPrintable isPrint f x.1 = false) →
      st.filePos = ((((a ++ b).map Prod.snd).sum : Nat) : Int) →
      (∀ line ∈ st.out, startsAt all line) →
      ∀ line ∈ (print f name st).out, startsAt all line := by
    intro st a b c hall hb hpb hpos hout
    by_cases he : emits f st.str
    · rw [print_out_of_emits f name st he]
      intro line hl
      rcases List.mem_append.1 hl with hl | hl
      · exact hout line hl
      · rw [List.mem_singleton.1 hl]
        refine ⟨a, b, c, hall, hb, ?_⟩
        intro o ho
        have hwb : wellFormed isPrint f b := fun x hx => hw x (by rw [hall]; simp [hx])
        have hlen := runesToString_length isPrint f b hpb hwb
        rw [hb] at hlen
        by_cases hoff : f.offset = true
        · simp only [hoff, if_true, Option.some.injEq] at ho
          rw [← ho, hpos, hlen]
          simp only [List.map_append, List.sum_append, Nat.cast_add]
          omega
        · simp [hoff] at ho
    · rw [print_of_not_emits f name st he]; exact hout
  intro rs
  induction rs with
  | nil => intro st a b _ _ _ _ hout; exact hout
  | cons x rest ih =>
    intro st a b hall hb hpb hpos hout
    have hp := hprint st a b (x :: rest) hall hb hpb hpos hout
    simp only [loop]
    by_cases hnp : nonPrintable isPrint f x.1 = true
    · -- the rune ends the string
      rw [step_nonPrintable isPrint f name st x hnp]
      by_cases hex : (print f name st).exited = true
      · simp only [hex, if_true]; exact hp
      · have hex2 : (print f name st).exited = false := by simpa using hex
        simp only [hex2, Bool.false_eq_true, if_false]
        refine ih _ (a ++ b ++ [x]) [] (by rw [hall]; simp) ?_ (by simp) ?_ hp
        · simp [print_str_of_not_exited f name st hex2]
        · simp only [print_filePos, hpos, List.append_nil, List.map_append, List.sum_append,
            List.map_cons, List.map_nil, List.sum_cons, List.sum_nil, Nat.cast_add]
          omega
    · have hnp2 : nonPrintable isPrint f x.1 = false := by simpa using hnp
      rw [step_printable isPrint f name st x hnp2]
      by_cases hmax : f.max ≤ (st.str.length : Int)
      · -- the buffer is full: flush, then keep the rune
        simp only [hmax, if_true]
        by_cases hex : (print f name st).exited = true
        · simp only [hex, if_true]; exact hp
        · have hex2 : (print f name st).exited = false := by simpa using hex
          simp only [hex2, Bool.false_eq_true, if_false]
          refine ih _ (a ++ b) [x] (by rw [hall]; simp) ?_ ?_ ?_ hp
          · simp [print_str_of_not_exited f name st hex2]
          · intro y hy; rw [List.mem_singleton.1 hy]; exact hnp2
          · simp only [print_filePos, hpos, List.map_append, List.sum_append,
              List.map_cons, List.map_nil, List.sum_cons, List.sum_nil, Nat.cast_add]
            omega
      · simp only [hmax, if_false]
        by_cases hex : st.exited = true
        · simp only [hex, if_true]; exact hout
        · have hex2 : st.exited = false := by simpa using hex
          simp only [hex2, Bool.false_eq_true, if_false]
          refine ih _ a (b ++ [x]) (by rw [hall]; simp) ?_ ?_ ?_ hout
          · simp [hb]
          · intro y hy
            rcases List.mem_append.1 hy with hy | hy
            · exact hpb y hy
            · rw [List.mem_singleton.1 hy]; exact hnp2
          · simp only [hpos, List.map_append, List.sum_append,
              List.map_cons, List.map_nil, List.sum_cons, List.sum_nil, Nat.cast_add]
            omega

/-- Where the offset computation of line 84 is right: when every rune kept in a
run was read with the width of its UTF-8 encoding, each record is printed for a
run `b` of the stream and its offset is the number of bytes read before `b`
(in particular it is not negative). -/
theorem scan_offset_of_wellFormed (isPrint : Nat → Bool) (f : Flags) (name : String)
    (rs : List (Nat × Nat)) (hw : wellFormed isPrint f rs) :
    ∀ line ∈ (scan isPrint f name rs).out, startsAt rs line := by
  by_cases hneg : makePanics f.max
  · rw [scan_of_panic isPrint f name rs hneg]
    intro line hl; simp [State.init] at hl
  · rw [scan_of_alloc isPrint f name rs hneg]
    exact loop_startsAt isPrint f name rs hw rs State.init [] [] (by simp) rfl (by simp)
      (by simp [State.init]) (by intro line hl; simp [State.init] at hl)

/-! ## Evaluations at the inputs where the program departs from its documentation -/

/-- C1 (final flush): on the scenario input with the default flags `do` prints
two records only. When `ReadRune` reports the end of the file the run
`longenoughtext`, which `print` would write, is still in the buffer, and `do`
returns at line 108 without calling `print`. -/
theorem C1_final_run_not_flushed :
    (doFile IsPrint (resolve defaultFlags) "f" sampleInput).out
      = [⟨"f", some 0, asciiBytes "hello world"⟩, ⟨"f", some 13, asciiBytes "binary"⟩] ∧
    (doFile IsPrint (resolve defaultFlags) "f" sampleInput).str = asciiBytes "longenoughtext" ∧
    (doFile IsPrint (resolve defaultFlags) "f" sampleInput).exited = false ∧
    emits (resolve defaultFlags) (asciiBytes "longenoughtext") := by
  decide

/-- C2 (start offset): six malformed bytes `0xFF` followed by a zero byte are
read as six runes U+FFFD of width 1, so `filePos` is 6 at the flush, while
`string(str)` has 18 bytes: the record of the run that starts at byte 0 is
printed with the offset -12. -/
theorem C2_offset_of_malformed_bytes :
    decode [0xFF, 0xFF, 0xFF, 0xFF, 0xFF, 0xFF, 0]
      = [(0xFFFD, 1), (0xFFFD, 1), (0xFFFD, 1), (0xFFFD, 1), (0xFFFD, 1), (0xFFFD, 1), (0, 1)] ∧
    (doFile IsPrint (resolve defaultFlags) "f" [0xFF, 0xFF, 0xFF, 0xFF, 0xFF, 0xFF, 0]).out
      = [⟨"f", some (-12), [0xFFFD, 0xFFFD, 0xFFFD, 0xFFFD, 0xFFFD, 0xFFFD]⟩] := by
  decide

/-- C6 (early exit): searching `wor` with `-n 1`, a first file that holds only
`hello world` has a qualifying run, yet `do` prints nothing for it and does not
exit, because the run is never flushed at the end of the file; `main` goes on to
the second file and prints its match instead. On the scenario input, where the
run is followed by a zero byte, the record is printed and the process exits. -/
theorem C6_early_exit_misses_last_run :
    emits (resolve { defaultFlags with search := asciiBytes "wor" }) (asciiBytes "hello world") ∧
    (doFile IsPrint (resolve { defaultFlags with search := asciiBytes "wor" }) "a"
      (asciiBytes "hello world")).out = [] ∧
    (doFile IsPrint (resolve { defaultFlags with search := asciiBytes "wor" }) "a"
      (asciiBytes "hello world")).exited = false ∧
    main IsPrint { defaultFlags with search := asciiBytes "wor" }
      [⟨"a", some (asciiBytes "hello world")⟩, ⟨"b", some (asciiBytes "a word" ++ [0])⟩] []
      = ⟨[⟨"b", some 0, asciiBytes "a word"⟩], true, false⟩ ∧
    main IsPrint { defaultFlags with search := asciiBytes "wor" }
      [⟨"a", some sampleInput⟩, ⟨"b", some (asciiBytes "a word" ++ [0])⟩] []
      = ⟨[⟨"a", some 0, asciiBytes "hello world"⟩], true, false⟩ := by
  decide

/-- C9 (the flag `-ascii` as documented): with `-ascii`, the file `résumé`
followed by a zero byte is printed as one record although it holds the rune
U+00E9, which is not ASCII: line 110 compares with `0xFF`. -/
theorem C9_ascii_flag_keeps_latin1 :
    decode [0x72, 0xC3, 0xA9, 0x73, 0x75, 0x6D, 0xC3, 0xA9, 0]
      = [(0x72, 1), (0xE9, 2), (0x73, 1), (0x75, 1), (0x6D, 1), (0xE9, 2), (0, 1)] ∧
    (doFile IsPrint (resolve { defaultFlags with ascii := true }) "f"
      [0x72, 0xC3, 0xA9, 0x73, 0x75, 0x6D, 0xC3, 0xA9, 0]).out
      = [⟨"f", some 0, [0x72, 0xE9, 0x73, 0x75, 0x6D, 0xE9]⟩] ∧
    ¬ (0xE9 : Nat) ≤ 0x7F := by
  decide

/-! ## The output only grows -/

theorem print_out_grows (f : Flags) (name : String) (st : State) :
    st.out <+: (print f name st).out ∧ (print f name st).out.length ≤ st.out.length + 1 := by
  by_cases he : emits f st.str
  · rw [print_out_of_emits f name st he]
    exact ⟨List.prefix_append _ _, by simp⟩
  · rw [print_of_not_emits f name st he]
    exact ⟨List.prefix_refl _, by simp⟩

theorem step_out_grows (isPrint : Nat → Bool) (f : Flags) (name : String) (st : State)
    (rw : Nat × Nat) : st.out <+: (step isPrint f name st rw).out := by
  have hp := (print_out_grows f name st).1
  simp only [step]
  split_ifs <;> first | exact hp | exact List.prefix_refl _

theorem loop_out_grows (isPrint : Nat → Bool) (f : Flags) (name : String)
    (rs : List (Nat × Nat)) : ∀ st : State, st.out <+: (loop isPrint f name rs st).out := by
  induction rs with
  | nil => intro st; exact List.prefix_refl _
  | cons rw rest ih =>
    intro st
    have hs := step_out_grows isPrint f name st rw
    simp only [loop]
    split_ifs
    · exact hs
    · exact List.IsPrefix.trans hs (ih _)

/-- C16 (prefix stability): the records printed for a stream `s` are a prefix
of the records printed for `s` followed by `t`; when the scan of `s` ends with
`os.Exit(0)` they are exactly the same; and one more non-printable rune adds at
most one record. -/
theorem C16_prefix_stable (isPrint : Nat → Bool) (f : Flags) (name : String)
    (s t : List (Nat × Nat)) :
    (scan isPrint f name s).out <+: (scan isPrint f name (s ++ t)).out ∧
    ((scan isPrint f name s).exited = true →
      (scan isPrint f name (s ++ t)).out = (scan isPrint f name s).out) ∧
    (∀ np : Nat × Nat, nonPrintable isPrint f np.1 = true →
      (scan isPrint f name (s ++ [np])).out.length ≤ (scan isPrint f name s).out.length + 1) := by
  by_cases hneg : makePanics f.max
  · have e : ∀ rs, scan isPrint f name rs = { State.init with panicked := true } :=
      fun rs => scan_of_panic isPrint f name rs hneg
    refine ⟨by rw [e, e], fun _ => by rw [e, e], fun np _ => ?_⟩
    rw [e, e]; exact Nat.le_succ _
  have hmax : ¬ makePanics f.max := hneg
  refine ⟨?_, ?_, ?_⟩
  · rw [scan_append isPrint f name s t hmax]
    split_ifs
    · exact List.prefix_refl _
    · exact loop_out_grows isPrint f name t _
  · intro hex
    rw [scan_append isPrint f name s t hmax, hex]
    simp
  · intro np hnp
    rw [scan_append isPrint f name s [np] hmax]
    by_cases hex : (scan isPrint f name s).exited = true
    · simp [hex]
    · have hex2 : (scan isPrint f name s).exited = false := by simpa using hex
      simp only [hex2, Bool.false_eq_true, if_false, loop_singleton,
        step_nonPrintable isPrint f name _ np hnp]
      have hp := (print_out_grows f name (scan isPrint f name s)).2
      split_ifs
      · exact hp
      · exact hp

/-- C16 at a concrete input: the records printed for the first 19 bytes of the
scenario input are a prefix of those printed when the remaining bytes follow,
and the scan of `hello world` gains at most one record when a zero byte
follows. -/
theorem C16_prefix_stable_witness :
    (scan IsPrint defaultFlags "f" (decode (sampleInput.take 19))).out
      <+: (scan IsPrint defaultFlags "f"
        (decode (sampleInput.take 19) ++ decode (sampleInput.drop 19))).out ∧
    (scan IsPrint defaultFlags "f" (decode (asciiBytes "hello world") ++ [(0, 1)])).out.length
      ≤ (scan IsPrint defaultFlags "f" (decode (asciiBytes "hello world"))).out.length + 1 :=
  ⟨(C16_prefix_stable IsPrint defaultFlags "f" (decode (sampleInput.take 19))
      (decode (sampleInput.drop 19))).1,
   (C16_prefix_stable IsPrint defaultFlags "f" (decode (asciiBytes "hello world")) []).2.2
      (0, 1) (by decide)⟩

/-! ## Resolution of the maximum -/

/-- C11 (resolution of the maximum): after lines 46 to 52 `*max` is at least
`*min`; it is the resolved `*min` when the configured maximum was smaller and
the configured maximum otherwise, where the resolved `*min` is the length of a
non-empty search string and the configured minimum without one. -/
theorem C11_resolve_max (f : Flags) :
    (resolve f).min ≤ (resolve f).max ∧
    (resolve f).min = (if f.search ≠ [] then (f.search.length : Int) else f.min) ∧
    (f.max < (resolve f).min → (resolve f).max = (resolve f).min) ∧
    (¬ f.max < (resolve f).min → (resolve f).max = f.max) ∧
    (resolve f).search = f.search ∧ (resolve f).ascii = f.ascii ∧
    (resolve f).n = f.n ∧ (resolve f).offset = f.offset := by
  refine ⟨(resolve_Resolved f).2, rfl, ?_, ?_, rfl, rfl, rfl, rfl⟩
  · intro h
    simp only [resolve] at h ⊢
    simp only [h, if_true]
  · intro h
    simp only [resolve] at h ⊢
    simp only [h, if_false]

/-- C11 at concrete inputs: `-min 10 -max 4` resolves `*max` to 10, and the
default flags keep `*max = 256`. -/
theorem C11_resolve_max_witness :
    (resolve { defaultFlags with min := 10, max := 4 }).max = 10 ∧
    (resolve defaultFlags).max = 256 :=
  ⟨(C11_resolve_max { defaultFlags with min := 10, max := 4 }).2.2.1 (by decide),
   (C11_resolve_max defaultFlags).2.2.2.1 (by decide)⟩

/-! ## The match counter -/

/-- A property of the state that every iteration keeps holds after the loop. -/
theorem loop_state_invariant (isPrint : Nat → Bool) (f : Flags) (name : String)
    (P : State → Prop)
    (hstep : ∀ st rw, P st → st.exited = false → P (step isPrint f name st rw))
    (rs : List (Nat × Nat)) :
    ∀ st : State, P st → st.exited = false → P (loop isPrint f name rs st) := by
  induction rs with
  | nil => intro st h _; exact h
  | cons rw rest ih =>
    intro st h hex
    have hs := hstep st rw h hex
    simp only [loop]
    by_cases hex1 : (step isPrint f name st rw).exited = true
    · simp only [hex1, if_true]; exact hs
    · have hex2 : (step isPrint f name st rw).exited = false := by simpa using hex1
      simp only [hex2, Bool.false_eq_true, if_false]
      exact ih _ hs hex2

/-- C13 (no search, no early exit): without a search string, for every `*n` and
every stream, the match counter is 0 and `os.Exit` has not been called at any
point of the scan; a flush (a call of `print`) at that point keeps both, and it
prints the buffer as a record whenever the buffer holds at least `*min` runes.
In particular, in a run of the program that got past `make` at line 72, a
non-printable rune read next prints the pending run. -/
theorem C13_no_search_no_exit (isPrint : Nat → Bool) (f : Flags) (name : String)
    (rs : List (Nat × Nat)) (hs : f.search = []) :
    (scan isPrint f name rs).searchTimes = 0 ∧ (scan isPrint f name rs).exited = false ∧
    (print f name (scan isPrint f name rs)).searchTimes = 0 ∧
    (print f name (scan isPrint f name rs)).exited = false ∧
    (f.min ≤ ((scan isPrint f name rs).str.length : Int) →
      (print f name (scan isPrint f name rs)).out = (scan isPrint f name rs).out ++
        [{ name := name
           offset := if f.offset then
             some ((scan isPrint f name rs).filePos
               - ((runesToString (scan isPrint f name rs).str).length : Int)) else none
           str := (scan isPrint f name rs).str }]) ∧
    (∀ np : Nat × Nat, ¬ makePanics f.max → nonPrintable isPrint f np.1 = true →
      f.min ≤ ((scan isPrint f name rs).str.length : Int) →
      (scan isPrint f name (rs ++ [np])).out.map Record.str =
        (scan isPrint f name rs).out.map Record.str ++ [(scan isPrint f name rs).str]) := by
  have h : (scan isPrint f name rs).searchTimes = 0 ∧ (scan isPrint f name rs).exited = false := by
    by_cases hneg : makePanics f.max
    · rw [scan_of_panic isPrint f name rs hneg]; exact ⟨rfl, rfl⟩
    · rw [scan_of_alloc isPrint f name rs hneg]
      exact loop_no_search isPrint f name hs rs State.init rfl rfl
  obtain ⟨h0, hex⟩ := h
  obtain ⟨p1, p2, _, _, p5⟩ := print_no_search f name (scan isPrint f name rs) hs h0 hex
  refine ⟨h0, hex, p1, p2, ?_, ?_⟩
  · intro hmin
    rw [p5]; simp only [hmin, if_true]
  · intro np hmax hnp hmin
    rw [scan_append isPrint f name rs [np] hmax]
    simp only [hex, Bool.false_eq_true, if_false, loop_singleton,
      step_nonPrintable isPrint f name _ np hnp, p2, p5, hmin, if_true]
    simp

/-- C13 at a concrete input: with the default flags (`*n = 1`), after `binary`
the counter is 0, the process has not exited, and the zero byte that follows
prints `binary`. -/
theorem C13_no_search_no_exit_witness :
    defaultFlags.search = [] ∧
    (scan IsPrint defaultFlags "f" (decode (asciiBytes "binary"))).searchTimes = 0 ∧
    (scan IsPrint defaultFlags "f" (decode (asciiBytes "binary"))).exited = false ∧
    (scan IsPrint defaultFlags "f" (decode (asciiBytes "binary") ++ [(0, 1)])).out.map Record.str
      = [asciiBytes "binary"] :=
  ⟨rfl,
   (C13_no_search_no_exit IsPrint defaultFlags "f" (decode (asciiBytes "binary")) rfl).1,
   (C13_no_search_no_exit IsPrint defaultFlags "f" (decode (asciiBytes "binary")) rfl).2.1,
   (C13_no_search_no_exit IsPrint defaultFlags "f" (decode (asciiBytes "binary")) rfl).2.2.2.2.2
     (0, 1) (by decide) (by decide) (by decide)⟩

theorem print_matchInv (f : Flags) (name : String) (st : State) (hs : f.search ≠ [])
    (hk : 0 < f.n) (h : matchInv f st) (hex : st.exited = false) :
    matchInv f (print f name st) := by
  obtain ⟨h1, h2, h3⟩ := h
  have hlt : (st.out.length : Int) < f.n := by
    rcases lt_or_eq_of_le h2 with h | h
    · exact h
    · rw [h3.2 h] at hex; exact absurd hex (by decide)
  by_cases he : emits f st.str
  · have hc : Contains (runesToString st.str) f.search = true := by
      rcases he.2 with h | h
      · exact absurd h hs
      · exact h
    unfold matchInv
    simp only [print, he.1, hc, hs, if_true, or_true, ne_eq, not_false_eq_true, and_self, hk,
      true_and, h1]
    by_cases hn : f.n ≤ (st.out.length : Int) + 1
    · simp only [hn, if_true, List.length_append, List.length_singleton, Nat.cast_add,
        Nat.cast_one, true_iff]
      exact ⟨trivial, by omega, by omega⟩
    · simp only [hn, if_false, List.length_append, List.length_singleton, Nat.cast_add,
        Nat.cast_one, hex, Bool.false_eq_true, false_iff]
      exact ⟨trivial, by omega, by omega⟩
  · rw [print_of_not_emits f name st he]
    exact ⟨h1, h2, h3⟩

theorem step_matchInv (isPrint : Nat → Bool) (f : Flags) (name : String) (st : State)
    (rw : Nat × Nat) (hs : f.search ≠ []) (hk : 0 < f.n) (h : matchInv f st)
    (hex : st.exited = false) : matchInv f (step isPrint f name st rw) := by
  have hp := print_matchInv f name st hs hk h hex
  simp only [step]
  split_ifs <;> first | exact hp | exact h

theorem scan_matchInv (isPrint : Nat → Bool) (f : Flags) (name : String)
    (rs : List (Nat × Nat)) (hs : f.search ≠ []) (hk : 0 < f.n) :
    matchInv f (scan isPrint f name rs) := by
  have hinit : matchInv f State.init := by
    refine ⟨rfl, ?_, ?_⟩
    · simp only [State.init, List.length_nil, Nat.cast_zero]; omega
    · simp only [State.init, List.length_nil, Nat.cast_zero, Bool.false_eq_true, false_iff]
      omega
  by_cases hneg : makePanics f.max
  · rw [scan_of_panic isPrint f name rs hneg]; exact hinit
  · rw [scan_of_alloc isPrint f name rs hneg]
    exact loop_state_invariant isPrint f name (matchInv f)
      (fun st rw h hex => step_matchInv isPrint f name st rw hs hk h hex) rs State.init hinit rfl

/-- C14 (the match limit is an upper bound): with a search string and `*n > 0`,
at every point of a scan at most `*n` records have been printed, the match
counter is the number of records printed, and `os.Exit(0)` has been called
exactly when `*n` records have been printed; after that nothing more is read
or printed. -/
theorem C14_match_limit (isPrint : Nat → Bool) (f : Flags) (name : String)
    (rs : List (Nat × Nat)) (hs : f.search ≠ []) (hk : 0 < f.n) :
    ((scan isPrint f name rs).out.length : Int) ≤ f.n ∧
    (scan isPrint f name rs).searchTimes = ((scan isPrint f name rs).out.length : Int) ∧
    ((scan isPrint f name rs).exited = true ↔
      ((scan isPrint f name rs).out.length : Int) = f.n) ∧
    (∀ t : List (Nat × Nat), (scan isPrint f name rs).exited = true →
      scan isPrint f name (rs ++ t) = scan isPrint f name rs) := by
  have hinv := scan_matchInv isPrint f name rs hs hk
  refine ⟨hinv.2.1, hinv.1, hinv.2.2, ?_⟩
  intro t hex
  by_cases hneg : makePanics f.max
  · rw [scan_of_panic isPrint f name _ hneg, scan_of_panic isPrint f name _ hneg]
  · rw [scan_append isPrint f name rs t hneg, hex]; simp

/-- C14 at a concrete input: searching `wor` with `-n 1` in the scenario input,
one record is printed, the counter is 1 and the process has exited. -/
theorem C14_match_limit_witness :
    (resolve { defaultFlags with search := asciiBytes "wor" }).search ≠ [] ∧
    (0 : Int) < (resolve { defaultFlags with search := asciiBytes "wor" }).n ∧
    (scan IsPrint (resolve { defaultFlags with search := asciiBytes "wor" }) "f"
      (decode sampleInput)).searchTimes
      = ((scan IsPrint (resolve { defaultFlags with search := asciiBytes "wor" }) "f"
          (decode sampleInput)).out.length : Int) ∧
    ((scan IsPrint (resolve { defaultFlags with search := asciiBytes "wor" }) "f"
        (decode sampleInput)).out.length : Int)
      ≤ (resolve { defaultFlags with search := asciiBytes "wor" }).n :=
  ⟨by decide, by decide,
   (C14_match_limit IsPrint (resolve { defaultFlags with search := asciiBytes "wor" }) "f"
     (decode sampleInput) (by decide) (by decide)).2.1,
   (C14_match_limit IsPrint (resolve { defaultFlags with search := asciiBytes "wor" }) "f"
     (decode sampleInput) (by decide) (by decide)).1⟩

/-! ## Several sources -/

theorem print_panicked (f : Flags) (name : String) (st : State) :
    (print f name st).panicked = st.panicked := by
  simp only [print]
  split_ifs <;> rfl

theorem step_panicked (isPrint : Nat → Bool) (f : Flags) (name : String) (st : State)
    (rw : Nat × Nat) : (step isPrint f name st rw).panicked = st.panicked := by
  have hp := print_panicked f name st
  simp only [step]
  split_ifs <;> first | exact hp | rfl

theorem loop_panicked (isPrint : Nat → Bool) (f : Flags) (name : String)
    (rs : List (Nat × Nat)) :
    ∀ st : State, (loop isPrint f name rs st).panicked = st.panicked := by
  induction rs with
  | nil => intro st; rfl
  | cons rw rest ih =>
    intro st
    simp only [loop]
    split_ifs
    · exact step_panicked isPrint f name st rw
    · rw [ih, step_panicked]

theorem doFile_panicked (isPrint : Nat → Bool) (f : Flags) (name : String)
    (bytes : List Nat) (h : ¬ makePanics f.max) :
    (doFile isPrint f name bytes).panicked = false := by
  rw [doFile, scan_of_alloc isPrint f name _ h, loop_panicked]; rfl

theorem doFile_of_panic (isPrint : Nat → Bool) (f : Flags) (name : String)
    (bytes : List Nat) (h : makePanics f.max) :
    doFile isPrint f name bytes = { State.init with panicked := true } := by
  rw [doFile, scan_of_panic isPrint f name _ h]

/-- When `make` panics, the loop of `main` prints nothing and does not reach
`os.Exit(0)`. -/
theorem mainLoop_of_panic (isPrint : Nat → Bool) (f : Flags) (h : makePanics f.max)
    (args : List Arg) :
    ∀ out : List Record, (mainLoop isPrint f args out).exited = false ∧
      (mainLoop isPrint f args out).out = out := by
  induction args with
  | nil => intro out; simp [mainLoop]
  | cons a rest ih =>
    intro out
    cases hfile : a.file with
    | none => simp only [mainLoop, hfile]; exact ih out
    | some bytes =>
      simp only [mainLoop, hfile, doFile_of_panic isPrint f a.name bytes h]
      simp [State.init]

/-- The function `main` runs its loop over the sources. -/
theorem main_eq_mainLoop (isPrint : Nat → Bool) (flags : Flags) (args : List Arg)
    (stdin : List Nat) :
    main isPrint flags args stdin = mainLoop isPrint (resolve flags) (sources args stdin) [] := by
  cases args with
  | nil =>
    simp only [main, sources, mainLoop, List.nil_append]
    split_ifs with h
    · rfl
    · simp only [Bool.or_eq_true, not_or, Bool.not_eq_true] at h
      rw [h.1, h.2]
  | cons a rest => simp only [main, sources]

/-- The loop of `main` stops at the first source on which `do` exits; up to
there the records of the sources are printed one source after the other. -/
theorem mainLoop_spec (isPrint : Nat → Bool) (f : Flags) (hmax : ¬ makePanics f.max)
    (args : List Arg) :
    ∀ out : List Record,
      ((mainLoop isPrint f args out).exited = true ↔
        ∃ a ∈ args, ∃ bytes, a.file = some bytes ∧
          (doFile isPrint f a.name bytes).exited = true) ∧
      ((∀ a ∈ args, ∀ bytes, a.file = some bytes →
          (doFile isPrint f a.name bytes).exited = false) →
        (mainLoop isPrint f args out).out = out ++ args.flatMap (sourceOut isPrint f)) := by
  induction args with
  | nil => intro out; simp [mainLoop]
  | cons a rest ih =>
    intro out
    cases hfile : a.file with
    | none =>
      simp only [mainLoop, hfile]
      obtain ⟨ih1, ih2⟩ := ih out
      constructor
      · rw [ih1]
        constructor
        · rintro ⟨x, hx, b, hb, he⟩; exact ⟨x, by simp [hx], b, hb, he⟩
        · rintro ⟨x, hx, b, hb, he⟩
          rcases List.mem_cons.1 hx with hx | hx
          · subst hx; rw [hfile] at hb; exact absurd hb (by simp)
          · exact ⟨x, hx, b, hb, he⟩
      · intro hall
        rw [ih2 (fun x hx b hb => hall x (by simp [hx]) b hb)]
        simp [sourceOut, hfile]
    | some bytes =>
      have hpan := doFile_panicked isPrint f a.name bytes hmax
      simp only [mainLoop, hfile, hpan, Bool.or_false]
      by_cases hex : (doFile isPrint f a.name bytes).exited = true
      · simp only [hex, if_true]
        constructor
        · simp only [true_iff]
          exact ⟨a, by simp, bytes, hfile, hex⟩
        · intro hall
          have := hall a (by simp) bytes hfile
          rw [hex] at this; exact absurd this (by decide)
      · have hex2 : (doFile isPrint f a.name bytes).exited = false := by simpa using hex
        simp only [hex2, Bool.false_eq_true, if_false]
        obtain ⟨ih1, ih2⟩ := ih (out ++ (doFile isPrint f a.name bytes).out)
        constructor
        · rw [ih1]
          constructor
          · rintro ⟨x, hx, b, hb, he⟩; exact ⟨x, by simp [hx], b, hb, he⟩
          · rintro ⟨x, hx, b, hb, he⟩
            rcases List.mem_cons.1 hx with hx | hx
            · subst hx
              rw [hfile] at hb
              simp only [Option.some.injEq] at hb
              subst hb
              rw [hex2] at he; exact absurd he (by decide)
            · exact ⟨x, hx, b, hb, he⟩
        · intro hall
          rw [ih2 (fun x hx b hb => hall x (by simp [hx]) b hb)]
          simp [sourceOut, hfile]

/-- C15 (per-source match counter): `do` starts its counter at 0 for every
source, so with a search string and `*n > 0` the process ends through
`os.Exit(0)` exactly when some source, scanned by itself, yields `*n` records;
when no source does, every source is scanned to its end and the records of all
of them are printed. The counter of a source is the number of records printed
for that source alone. -/
theorem C15_per_source_counter (isPrint : Nat → Bool) (flags : Flags) (args : List Arg)
    (stdin : List Nat) (hs : flags.search ≠ []) (hk : 0 < flags.n) :
    ((main isPrint flags args stdin).exited = true ↔
      ∃ a ∈ sources args stdin, reachesLimit isPrint (resolve flags) a) ∧
    ((∀ a ∈ sources args stdin, ¬ reachesLimit isPrint (resolve flags) a) →
      (main isPrint flags args stdin).exited = false ∧
      (main isPrint flags args stdin).out =
        (sources args stdin).flatMap (sourceOut isPrint (resolve flags))) ∧
    (∀ (name : String) (bytes : List Nat),
      (doFile isPrint (resolve flags) name bytes).searchTimes =
        ((doFile isPrint (resolve flags) name bytes).out.length : Int)) := by
  have hs2 : (resolve flags).search ≠ [] := hs
  have hk2 : 0 < (resolve flags).n := hk
  have hinv : ∀ (name : String) (bytes : List Nat),
      matchInv (resolve flags) (doFile isPrint (resolve flags) name bytes) :=
    fun name bytes => scan_matchInv isPrint (resolve flags) name (decode bytes) hs2 hk2
  have hiff : ∀ a : Arg, reachesLimit isPrint (resolve flags) a ↔
      ∃ bytes, a.file = some bytes ∧
        (doFile isPrint (resolve flags) a.name bytes).exited = true := by
    intro a
    constructor
    · rintro ⟨b, hb, hl⟩; exact ⟨b, hb, (hinv a.name b).2.2.2 hl⟩
    · rintro ⟨b, hb, he⟩; exact ⟨b, hb, (hinv a.name b).2.2.1 he⟩
  rw [main_eq_mainLoop]
  by_cases hpanic : makePanics (resolve flags).max
  · -- `make` panics on every source: nothing is printed, nothing reaches `*n`
    obtain ⟨q1, q2⟩ := mainLoop_of_panic isPrint (resolve flags) hpanic (sources args stdin) []
    have hnone : ∀ a : Arg, ¬ reachesLimit isPrint (resolve flags) a := by
      rintro a ⟨b, _, hl⟩
      rw [doFile_of_panic isPrint (resolve flags) a.name b hpanic] at hl
      simp only [State.init, List.length_nil, Nat.cast_zero] at hl
      omega
    have hout : ∀ a : Arg, sourceOut isPrint (resolve flags) a = [] := by
      intro a
      unfold sourceOut
      cases a.file with
      | none => rfl
      | some b => simp only [doFile_of_panic isPrint (resolve flags) a.name b hpanic]; rfl
    refine ⟨?_, ?_, fun name bytes => (hinv name bytes).1⟩
    · rw [q1]
      constructor
      · intro h; exact absurd h (by decide)
      · rintro ⟨a, _, h⟩; exact absurd h (hnone a)
    · intro _
      refine ⟨q1, ?_⟩
      rw [q2]
      symm
      rw [List.flatMap_eq_nil_iff]
      intro a _; exact hout a
  have hmax : ¬ makePanics (resolve flags).max := hpanic
  obtain ⟨m1, m2⟩ := mainLoop_spec isPrint (resolve flags) hmax (sources args stdin) []
  refine ⟨?_, ?_, fun name bytes => (hinv name bytes).1⟩
  · rw [m1]
    constructor
    · rintro ⟨a, ha, h⟩; exact ⟨a, ha, (hiff a).2 h⟩
    · rintro ⟨a, ha, h⟩; exact ⟨a, ha, (hiff a).1 h⟩
  · intro hall
    have hno : ∀ a ∈ sources args stdin, ∀ bytes, a.file = some bytes →
        (doFile isPrint (resolve flags) a.name bytes).exited = false := by
      intro a ha b hb
      by_cases he : (doFile isPrint (resolve flags) a.name b).exited = true
      · exact absurd ((hiff a).2 ⟨b, hb, he⟩) (hall a ha)
      · simpa using he
    constructor
    · by_cases he : (mainLoop isPrint (resolve flags) (sources args stdin) []).exited = true
      · obtain ⟨a, ha, b, hb, hx⟩ := m1.1 he
        rw [hno a ha b hb] at hx; exact absurd hx (by decide)
      · simpa using he
    · rw [m2 hno]; simp

/-- C15 at a concrete input: searching `wor` with `-n 2` in two files that hold
one match each, both files are scanned to the end, both records are printed
and the process does not exit early. -/
theorem C15_per_source_counter_witness :
    (main IsPrint { defaultFlags with search := asciiBytes "wor", n := 2 }
      [⟨"a", some (asciiBytes "hello world" ++ [0])⟩, ⟨"b", some (asciiBytes "a word" ++ [0])⟩]
      []).exited = false ∧
    (main IsPrint { defaultFlags with search := asciiBytes "wor", n := 2 }
      [⟨"a", some (asciiBytes "hello world" ++ [0])⟩, ⟨"b", some (asciiBytes "a word" ++ [0])⟩]
      []).out = [⟨"a", some 0, asciiBytes "hello world"⟩, ⟨"b", some 0, asciiBytes "a word"⟩] :=
  (C15_per_source_counter IsPrint { defaultFlags with search := asciiBytes "wor", n := 2 }
    [⟨"a", some (asciiBytes "hello world" ++ [0])⟩, ⟨"b", some (asciiBytes "a word" ++ [0])⟩]
    [] (by decide) (by decide)).2.1
    (by
      intro a ha
      simp only [sources, List.mem_cons, List.mem_singleton, List.not_mem_nil, or_false] at ha
      rcases ha with ha | ha
      · subst ha
        rintro ⟨b, hb, hl⟩
        simp only [Option.some.injEq] at hb
        subst hb
        revert hl
        decide
      · subst ha
        rintro ⟨b, hb, hl⟩
        simp only [Option.some.injEq] at hb
        subst hb
        revert hl
        decide)

/-! ## The scan against the reference definition -/

theorem chunksFuel_fuel (k : Nat) (hk : 1 ≤ k) (fuel1 : Nat) :
    ∀ (fuel2 : Nat) (xs : List Nat), xs.length ≤ fuel1 → xs.length ≤ fuel2 →
      chunksFuel k fuel1 xs = chunksFuel k fuel2 xs := by
  induction fuel1 with
  | zero =>
    intro fuel2 xs h1 _
    have : xs = [] := List.length_eq_zero.1 (by omega)
    subst this
    cases fuel2 <;> simp [chunksFuel]
  | succ n ih =>
    intro fuel2 xs h1 h2
    cases xs with
    | nil => cases fuel2 <;> simp [chunksFuel]
    | cons x xs =>
      cases fuel2 with
      | zero => simp at h2
      | succ m =>
        simp only [chunksFuel]
        simp only [List.length_cons] at h1 h2
        have hd : ((x :: xs).drop k).length ≤ xs.length := by
          simp only [List.length_drop, List.length_cons]; omega
        rw [ih m _ (by omega) (by omega)]

theorem chunks_nil (k : Nat) : chunks k [] = [] := by
  simp [chunks, chunksFuel]

theorem chunks_short (k : Nat) (xs : List Nat) (hne : xs ≠ []) (hlen : xs.length ≤ k) :
    chunks k xs = [xs] := by
  cases xs with
  | nil => exact absurd rfl hne
  | cons x xs =>
    simp only [chunks, List.length_cons, chunksFuel]
    rw [List.take_of_length_le hlen, List.drop_of_length_le hlen]
    cases xs.length <;> simp [chunksFuel]

theorem chunks_full (k : Nat) (hk : 1 ≤ k) (a b : List Nat) (ha : a.length = k) :
    chunks k (a ++ b) = a :: chunks k b := by
  cases a with
  | nil => simp at ha; omega
  | cons x a =>
    have e : chunks k ((x :: a) ++ b) =
        ((x :: a) ++ b).take k :: chunksFuel k (a ++ b).length (((x :: a) ++ b).drop k) := rfl
    have ht : ((x :: a) ++ b).take k = x :: a := by rw [← ha]; simp
    have hd : ((x :: a) ++ b).drop k = b := by rw [← ha]; simp
    rw [e, ht, hd, chunksFuel_fuel k hk (a ++ b).length b.length b (by simp) (le_refl _)]
    rfl

theorem qualifies_iff (f : Flags) (c : List Nat) : qualifies f c = true ↔ emits f c := by
  simp only [qualifies, emits, Bool.and_eq_true, Bool.or_eq_true, decide_eq_true_eq,
    contains_iff]

/-- With the match limit disabled `print` never exits; it empties the buffer
and prints it when it qualifies. -/
theorem print_no_limit (f : Flags) (name : String) (st : State) (hn : f.n ≤ 0)
    (hex : st.exited = false) :
    (print f name st).exited = false ∧ (print f name st).str = [] ∧
    (print f name st).out.map Record.str =
      st.out.map Record.str ++ (if emits f st.str then [st.str] else []) := by
  have hn0 : ¬ (0 < f.n) := by omega
  by_cases he : emits f st.str
  · obtain ⟨h1, h2⟩ := he
    have he : emits f st.str := ⟨h1, h2⟩
    simp only [print, h1, h2, if_true, hn0, false_and, if_false, hex, he, List.map_append,
      List.map_cons, List.map_nil, and_self]
  · rw [print_of_not_emits f name st he]
    simp [he, hex]

theorem step_fields_nonPrintable (isPrint : Nat → Bool) (f : Flags) (name : String)
    (st : State) (x : Nat × Nat) (hnp : nonPrintable isPrint f x.1 = true)
    (hp : (print f name st).exited = false) :
    (step isPrint f name st x).exited = false ∧
    (step isPrint f name st x).str = (print f name st).str ∧
    (step isPrint f name st x).out = (print f name st).out := by
  rw [step_nonPrintable isPrint f name st x hnp]
  simp [hp]

theorem step_fields_full (isPrint : Nat → Bool) (f : Flags) (name : String)
    (st : State) (x : Nat × Nat) (hnp : nonPrintable isPrint f x.1 = false)
    (hfull : f.max ≤ (st.str.length : Int)) (hp : (print f name st).exited = false) :
    (step isPrint f name st x).exited = false ∧
    (step isPrint f name st x).str = (print f name st).str ++ [x.1] ∧
    (step isPrint f name st x).out = (print f name st).out := by
  rw [step_printable isPrint f name st x hnp]
  simp [hfull, hp]

theorem step_fields_append (isPrint : Nat → Bool) (f : Flags) (name : String)
    (st : State) (x : Nat × Nat) (hnp : nonPrintable isPrint f x.1 = false)
    (hroom : ¬ f.max ≤ (st.str.length : Int)) (hex : st.exited = false) :
    (step isPrint f name st x).exited = false ∧
    (step isPrint f name st x).str = st.str ++ [x.1] ∧
    (step isPrint f name st x).out = st.out := by
  rw [step_printable isPrint f name st x hnp]
  simp [hroom, hex]

theorem modifyHead_nil_append (L : List (List Nat)) :
    L.modifyHead (fun s => [] ++ s) = L := by
  cases L <;> simp

/-- What has been printed, together with what a flush of the buffer would
print, is the reference output of the runes read so far; here the buffer is
prepended to the first segment of the runes that remain. -/
theorem loop_refOutput (isPrint : Nat → Bool) (f : Flags) (name : String)
    (hmax : 1 ≤ f.max) (hmin : 1 ≤ f.min) (hn : f.n ≤ 0) :
    ∀ (rs : List (Nat × Nat)) (st : State), st.exited = false →
      (st.str.length : Int) ≤ f.max →
      (loop isPrint f name rs st).exited = false ∧
      (loop isPrint f name rs st).out.map Record.str ++
          (chunks f.max.toNat (loop isPrint f name rs st).str).filter (qualifies f)
        = st.out.map Record.str ++
          ((((rs.map Prod.fst).splitOnP (nonPrintable isPrint f)).modifyHead
            (fun s => st.str ++ s)).flatMap (chunks f.max.toNat)).filter (qualifies f) := by
  have hK : ((f.max.toNat : Nat) : Int) = f.max := Int.toNat_of_nonneg (by omega)
  have hK1 : 1 ≤ f.max.toNat := by omega
  -- what a flush of a buffer of at most `*max` runes prints
  have hflush : ∀ str : List Nat, (str.length : Int) ≤ f.max →
      (chunks f.max.toNat str).filter (qualifies f) = if emits f str then [str] else [] := by
    intro str hlen
    by_cases hnil : str = []
    · subst hnil
      have hne : ¬ emits f [] := fun he => by
        have := he.1; simp at this; omega
      simp [chunks_nil, hne]
    · rw [chunks_short f.max.toNat str hnil (by omega)]
      by_cases he : emits f str
      · simp [he, (qualifies_iff f str).2 he]
      · have hq : qualifies f str = false := by
          rw [← Bool.not_eq_true]; exact fun h => he ((qualifies_iff f str).1 h)
        simp [he, hq]
  intro rs
  induction rs with
  | nil =>
    intro st hex _
    simp [loop, hex]
  | cons x rest ih =>
    intro st hex hlen
    have hL := List.splitOnP_ne_nil (nonPrintable isPrint f) (rest.map Prod.fst)
    obtain ⟨pe, ps, po⟩ := print_no_limit f name st hn hex
    by_cases hnp : nonPrintable isPrint f x.1 = true
    · -- the rune ends the segment: the buffer is flushed
      obtain ⟨s1, s2, s3⟩ := step_fields_nonPrintable isPrint f name st x hnp pe
      obtain ⟨i1, i2⟩ := ih (step isPrint f name st x) s1 (by rw [s2, ps]; simp; omega)
      rw [loop_cons_of_not_exited isPrint f name x rest st s1]
      refine ⟨i1, ?_⟩
      rw [i2, s2, s3, ps, po, modifyHead_nil_append]
      simp only [List.map_cons, List.splitOnP_cons, hnp, if_true, List.modifyHead_cons,
        List.append_nil, List.flatMap_cons, List.filter_append, hflush st.str hlen,
        List.append_assoc]
    · have hnp2 : nonPrintable isPrint f x.1 = false := by simpa using hnp
      have hsplit : ((x :: rest).map Prod.fst).splitOnP (nonPrintable isPrint f) =
          ((rest.map Prod.fst).splitOnP (nonPrintable isPrint f)).modifyHead (List.cons x.1) := by
        simp only [List.map_cons, List.splitOnP_cons, hnp2, Bool.false_eq_true, if_false]
      obtain ⟨h, t, hht⟩ := List.exists_cons_of_ne_nil hL
      by_cases hfull : f.max ≤ (st.str.length : Int)
      · -- the buffer is full: it is flushed and restarts with the rune
        obtain ⟨s1, s2, s3⟩ := step_fields_full isPrint f name st x hnp2 hfull pe
        obtain ⟨i1, i2⟩ := ih (step isPrint f name st x) s1 (by rw [s2, ps]; simp; omega)
        rw [loop_cons_of_not_exited isPrint f name x rest st s1]
        refine ⟨i1, ?_⟩
        have hlenK : st.str.length = f.max.toNat := by omega
        rw [i2, s2, s3, ps, po, hsplit, hht]
        simp only [List.modifyHead_cons, List.flatMap_cons, List.nil_append,
          List.singleton_append, List.filter_append, List.append_assoc]
        rw [chunks_full f.max.toNat hK1 st.str (x.1 :: h) hlenK]
        by_cases he : emits f st.str
        · simp [he, (qualifies_iff f st.str).2 he]
        · have hq : qualifies f st.str = false := by
            rw [← Bool.not_eq_true]; exact fun h => he ((qualifies_iff f st.str).1 h)
          simp [he, hq]
      · -- there is room: the rune joins the buffer
        obtain ⟨s1, s2, s3⟩ := step_fields_append isPrint f name st x hnp2 hfull hex
        obtain ⟨i1, i2⟩ := ih (step isPrint f name st x) s1 (by rw [s2]; simp; omega)
        rw [loop_cons_of_not_exited isPrint f name x rest st s1]
        refine ⟨i1, ?_⟩
        rw [i2, s2, s3, hsplit, hht]
        simp only [List.modifyHead_cons, List.append_assoc, List.singleton_append]

/-- C12, as stated, fails when `*min` is not positive: with `-min 0 -n 0`
(resolved flags, `*max = 256`) and a file that holds one zero byte, the flush of
the empty buffer prints an empty record, while the stream has no printable
segment and the reference output is empty. It also fails when `make` refuses
`*max`: with `-max 4611686018427387904 -n 0` (`2^62`) and the file `binary`
followed by a zero byte the program panics at line 72 and prints nothing,
while the reference output is `binary`. -/
theorem C12_reference_output_counterexample :
    resolve { defaultFlags with min := 0, n := 0 } = { defaultFlags with min := 0, n := 0 } ∧
    (1 : Int) ≤ ({ defaultFlags with min := 0, n := 0 } : Flags).max ∧
    ({ defaultFlags with min := 0, n := 0 } : Flags).n ≤ 0 ∧
    nonPrintable IsPrint { defaultFlags with min := 0, n := 0 } 0 = true ∧
    (doFile IsPrint { defaultFlags with min := 0, n := 0 } "f" [0]).out = [⟨"f", some 0, []⟩] ∧
    refOutput IsPrint { defaultFlags with min := 0, n := 0 } (decode [0]) = [] ∧
    resolve { defaultFlags with max := 0x4000000000000000, n := 0 }
      = { defaultFlags with max := 0x4000000000000000, n := 0 } ∧
    (doFile IsPrint { defaultFlags with max := 0x4000000000000000, n := 0 } "f"
      (asciiBytes "binary" ++ [0])).panicked = true ∧
    (doFile IsPrint { defaultFlags with max := 0x4000000000000000, n := 0 } "f"
      (asciiBytes "binary" ++ [0])).out = [] ∧
    refOutput IsPrint { defaultFlags with max := 0x4000000000000000, n := 0 }
      (decode (asciiBytes "binary" ++ [0])) = [asciiBytes "binary"] := by
  decide

/-- C12 (reference definition of the output), amended: for resolved flags with
`*max` at least 1 and accepted by `make` at line 72 (at most `2^46` runes),
`*min` at least 1 and the match limit disabled (`*n ≤ 0`), and for every stream
that is empty or ends with a non-printable rune, the run texts printed by the
scan are, in order, the chunks of `*max` runes of the maximal printable
segments of the stream that have at least `*min` runes and contain the search
string, if there is one. -/
theorem C12_reference_output (isPrint : Nat → Bool) (f : Flags) (name : String)
    (rs : List (Nat × Nat)) (_hres : Resolved f) (hmax : 1 ≤ f.max)
    (hcap : ¬ makePanics f.max) (hmin : 1 ≤ f.min)
    (hn : f.n ≤ 0) (hb : atBoundary isPrint f rs) :
    (scan isPrint f name rs).out.map Record.str = refOutput isPrint f rs := by
  have h0 : ¬ makePanics f.max := hcap
  obtain ⟨e1, e2⟩ := loop_refOutput isPrint f name hmax hmin hn rs State.init rfl
    (by simp only [State.init, List.length_nil, Nat.cast_zero]; omega)
  rw [← scan_of_alloc isPrint f name rs h0] at e1 e2
  have hstr : (scan isPrint f name rs).str = [] := by
    rcases scan_atBoundary isPrint f name rs hb with h | h
    · rw [e1] at h; exact absurd h (by decide)
    · exact h
  rw [hstr, chunks_nil] at e2
  simp only [List.filter_nil, List.append_nil, State.init, List.map_nil, List.nil_append,
    modifyHead_nil_append] at e2
  have hm : ∀ L : List (List Nat), L.modifyHead (fun s => s) = L := by
    intro L; cases L <;> rfl
  rw [e2, hm]; rfl

/-- C12 at a concrete input: with `-min 2 -max 4 -n 0`, the stream `abcdefghi`,
zero byte, `xy`, zero byte prints `abcd`, `efgh` and `xy`; the chunk `i` is too
short. -/
theorem C12_reference_output_witness :
    Resolved { defaultFlags with min := 2, max := 4, n := 0 } ∧
    (scan IsPrint { defaultFlags with min := 2, max := 4, n := 0 } "f"
      [(97, 1), (98, 1), (99, 1), (100, 1), (101, 1), (102, 1), (103, 1), (104, 1), (105, 1),
       (0, 1), (120, 1), (121, 1), (0, 1)]).out.map Record.str
      = [[97, 98, 99, 100], [101, 102, 103, 104], [120, 121]] :=
  ⟨by decide,
   C12_reference_output IsPrint { defaultFlags with min := 2, max := 4, n := 0 } "f"
     [(97, 1), (98, 1), (99, 1), (100, 1), (101, 1), (102, 1), (103, 1), (104, 1), (105, 1),
      (0, 1), (120, 1), (121, 1), (0, 1)]
     (by decide) (by decide) (by decide) (by decide) (by decide)
     (by
       intro x hx
       simp only [List.getLast?_cons_cons, List.getLast?_singleton, Option.some.injEq] at hx
       subst hx
       decide)⟩

/-- C17 (a match lost at a max-length split): searching `wor` with `-max 3`
(resolved: `*min = *max = 3`), the printable run `xwor` followed by a zero byte
contains the search string, yet nothing is printed: the forced flush cuts the
run into `xwo` and `r`, and neither chunk passes the filter. With the default
`*max = 256` the same stream prints the record `xwor`. -/
theorem C17_match_lost_at_split :
    ∃ (f : Flags) (run : List (Nat × Nat)) (np : Nat × Nat),
      Resolved f ∧ f.search ≠ [] ∧ f.min ≤ f.max ∧
      (∀ x ∈ run, nonPrintable IsPrint f x.1 = false) ∧
      nonPrintable IsPrint f np.1 = true ∧
      f.search <:+: runesToString (run.map Prod.fst) ∧
      (scan IsPrint f "f" run).str = [0x72] ∧
      (scan IsPrint f "f" (run ++ [np])).out = [] ∧
      (scan IsPrint { f with max := 256 } "f" (run ++ [np])).out
        = [⟨"f", some 0, run.map Prod.fst⟩] := by
  refine ⟨resolve { defaultFlags with search := asciiBytes "wor", max := 3 },
    decode (asciiBytes "xwor"), (0, 1), ?_, ?_, ?_, ?_, ?_, ?_, ?_, ?_, ?_⟩
  · decide
  · decide
  · decide
  · decide
  · decide
  · exact (contains_iff _ _).1 (by decide)
  · decide
  · decide
  · decide

end Strings
